import Mathlib

/-!
# libperiodic: band list and control loop

A shallow embedding of `src/periodic.c` (phase-detector variant) and of
`src/prdic_main.c` (frequency-detector control loop).

Conventions of the embedding.

* `double` values are rationals (`Rat`): there is no NaN and no infinity.  In
  `periodic.c` the operations are exact.  In the control loop of
  `prdic_main.c` every arithmetic result goes through the rounding function
  `fl` of `prdic_deps_FD`, which may be the identity (exact arithmetic) or
  `round_b64` (binary64, round to nearest).
* `int` and `time_t` are unbounded integers (`Int`); band ids only grow by
  one per allocated band.
* A `struct prdic_band *` is an address: `0` is `&pip->bands[0]`, the band
  embedded in the instance, and `k + 1` is the `k`-th band obtained from
  `malloc`.  `NULL` is `none`.
* The headers `prdic_math.h` and `prdic_timespecops.h` are not among the
  sources.  What they provide is either a field of `prdic_deps` (the
  theorems then hold for every implementation) or a definition written
  from the specification, marked as such.
-/

namespace Periodic

/-! ## Data model -/

/-- The C `struct timespec`: whole seconds and nanoseconds. -/
structure timespec where
  tv_sec : Int
  tv_nsec : Int
deriving DecidableEq, Repr

/-- The accessor `SEC(tp)`. -/
def SEC (t : timespec) : Int := t.tv_sec

/-- The accessor `NSEC(tp)`. -/
def NSEC (t : timespec) : Int := t.tv_nsec

/-- The all-zero `timespec` left by `memset`. -/
def timespec_zero : timespec := ⟨0, 0⟩

/-- The test `timespeciszero(tp)`: both fields are zero. -/
def timespeciszero (t : timespec) : Bool := t.tv_sec == 0 && t.tv_nsec == 0

/-- Modelled from the spec: `struct recfilter` of `prdic_math.h`, which is not
among the sources.  The specification gives it a smoothing `coefficient` and
the current smoothed value `lastval`. -/
structure recfilter where
  coefficient : Rat
  lastval : Rat
deriving DecidableEq, Repr

/-- The phase detector `struct PFD`; `periodic.c` reads and writes its
`target_tclk` field. -/
structure PFD where
  target_tclk : timespec
deriving DecidableEq, Repr

/-- The C `struct prdic_band` of `periodic.c`, field by field. -/
structure prdic_band where
  id : Int
  freq_hz : Rat
  period : timespec
  tfreq_hz : timespec
  epoch : timespec
  loop_error : recfilter
  phase_detector : PFD
  last_tclk : timespec
  next : Option Nat
deriving DecidableEq, Repr

/-- The C `struct prdic_inst` together with the bands it owns: `bands` is the
embedded `bands[0]` (address `0`), `heap` holds the bands obtained from
`malloc` (`heap[k]` lives at address `k + 1`) and `ab` is the active-band
pointer. -/
structure prdic_inst where
  bands : prdic_band
  heap : List prdic_band
  ab : Nat
deriving DecidableEq, Repr

/-- How a call ends: it returns a value, an `assert` fires, `abort()` is
called, an invalid address is dereferenced, or the loop bound of the model
is used up. -/
inductive Outcome (α : Type) where
  | ret : α → Outcome α
  | assert_fail : Outcome α
  | aborted : Outcome α
  | fault : Outcome α
  | timeout : Outcome α
deriving DecidableEq, Repr

/-- What `periodic.c` takes from the two headers that are not among the
sources, and from libm. -/
structure prdic_deps where
  /-- The update `timespecadd(vvp, uvp)`: the new value of `*vvp`. -/
  timespecadd : timespec → timespec → timespec
  /-- The update `timespecsub(vvp, uvp)`: the new value of `*vvp`. -/
  timespecsub : timespec → timespec → timespec
  /-- The product `timespecmul(rvp, vvp, uvp)`: the value stored in `*rvp`. -/
  timespecmul : timespec → timespec → timespec
  /-- The call `PFD_get_error(pfd, tclk)`: the error and the new detector. -/
  PFD_get_error : PFD → timespec → Rat × PFD
  /-- The squashing function `sigmoid`. -/
  sigmoid : Rat → Rat
  /-- The call `freqoff_to_period(freq_0, foff_c, foff_x)`. -/
  freqoff_to_period : Rat → Rat → Rat → Rat

/-! ## Memory access -/

/-- Reads the band stored at an address; `none` when nothing lives there. -/
def prdic_inst.deref (pip : prdic_inst) : Nat → Option prdic_band
  | 0 => some pip.bands
  | k + 1 => pip.heap[k]?

/-- Writes a band at an address. -/
def prdic_inst.store (pip : prdic_inst) (a : Nat) (b : prdic_band) : prdic_inst :=
  match a with
  | 0 => { pip with bands := b }
  | k + 1 => { pip with heap := pip.heap.set k b }

/-- The band left by `memset(bp, 0, sizeof *bp)`; the filter fields of the
zeroed `recfilter` are all zero and `next` is `NULL`. -/
def band_zero : prdic_band :=
  { id := 0, freq_hz := 0, period := timespec_zero, tfreq_hz := timespec_zero,
    epoch := timespec_zero, loop_error := ⟨0, 0⟩, phase_detector := ⟨timespec_zero⟩,
    last_tclk := timespec_zero, next := none }

/-! ## Helpers of `periodic.c` -/

/-- The C `round`: to the nearest integer, halves away from zero. -/
def c_round (x : Rat) : Int :=
  if 0 ≤ x then ⌊x + 1 / 2⌋ else -⌊-x + 1 / 2⌋

/-- The C `trunc`: rounds toward zero. -/
def c_trunc (x : Rat) : Int :=
  if 0 ≤ x then ⌊x⌋ else -⌊-x⌋

/-- The number of nanoseconds in a second, `NSEC_IN_SEC`. -/
def NSEC_IN_SEC : Int := 1000000000

/-- The conversion `dtime2timespec`, after the copy kept under `#if 0` in
`periodic.c`. -/
def dtime2timespec (dtime : Rat) : timespec :=
  let sec := c_trunc dtime
  let dtime := dtime - (sec : Rat)
  ⟨sec, c_round ((NSEC_IN_SEC : Rat) * dtime)⟩

/-- The static inline `getttime`: `clock` is what `clock_gettime` delivers
(`none` when it returns `-1`), `ttp` the old value of the out-parameter.
Returns the status and the new value of `*ttp`. -/
def getttime (clock : Option timespec) (ttp : timespec) (abort_on_fail : Bool) :
    Outcome (Int × timespec) :=
  match clock with
  | none => if abort_on_fail then .aborted else .ret (-1, ttp)
  | some t => .ret (0, t)

/-- The helper `tplusdtime`: adds an offset in seconds to `*ttp`. -/
def tplusdtime (E : prdic_deps) (ttp : timespec) (offset : Rat) : timespec :=
  E.timespecadd ttp (dtime2timespec offset)

/-- Modelled from the spec: `recfilter_init(f, fcoef, initval, peak_detect)` of
`prdic_math`, which is not among the sources; it sets the coefficient and the
initial value. -/
def recfilter_init (_f : recfilter) (fcoef initval : Rat) (_peak_detect : Int) : recfilter :=
  ⟨fcoef, initval⟩

/-- Modelled from the spec: `recfilter_apply(f, x)` of `prdic_math`, which is
not among the sources: `lastval = coefficient*lastval + (1-coefficient)*sample`. -/
def recfilter_apply (f : recfilter) (x : Rat) : recfilter :=
  { f with lastval := f.coefficient * f.lastval + (1 - f.coefficient) * x }

/-- Modelled from the spec: `recfilter_adjust(f, fcoef)` of `prdic_math`, which
is not among the sources: a contract violation unless `lastval == 0`, otherwise
the coefficient changes and `lastval` is not touched. -/
def recfilter_adjust (f : recfilter) (fcoef : Rat) : Outcome recfilter :=
  if f.lastval = 0 then .ret { f with coefficient := fcoef } else .assert_fail

/-- Modelled from the spec: `PFD_init(pfd)` of `prdic_math`, which is not among
the sources: `target_tclk = 0`. -/
def PFD_init (_pfd : PFD) : PFD := ⟨timespec_zero⟩

/-- The static `band_init` of `periodic.c`. -/
def band_init (bp : prdic_band) (freq_hz : Rat) : prdic_band :=
  { bp with
    freq_hz := freq_hz
    period := dtime2timespec (1 / freq_hz)
    tfreq_hz := dtime2timespec freq_hz
    loop_error := recfilter_init bp.loop_error (96 / 100) 0 0
    phase_detector := PFD_init bp.phase_detector }

/-! ## The public operations of `periodic.c` -/

/-- The constructor `prdic_init`: `malloc_ok` tells whether `malloc` delivers,
`clock` is the reading of the monotonic clock.  `none` is the `NULL` result. -/
def prdic_init (E : prdic_deps) (malloc_ok : Bool) (clock : Option timespec)
    (freq_hz off_from_now : Rat) : Outcome (Option prdic_inst) :=
  if !malloc_ok then .ret none
  else
    let pip : prdic_inst := { bands := band_zero, heap := [], ab := 0 }
    match getttime clock pip.bands.epoch false with
    | .ret (rc, t) =>
      if rc ≠ 0 then .ret none
      else
        let b := { pip.bands with epoch := tplusdtime E t off_from_now }
        .ret (some { pip with bands := band_init b freq_hz })
    | .assert_fail => .assert_fail
    | .aborted => .aborted
    | .fault => .fault
    | .timeout => .timeout

/-- The loop of `prdic_addband`:
`for (tbp = &pip->bands[0]; tbp->next != NULL; tbp = tbp->next) continue;`
started at `tbp`, at most `fuel` iterations. -/
def addband_tail (pip : prdic_inst) : Nat → Nat → Outcome Nat
  | 0, _ => .timeout
  | fuel + 1, tbp =>
    match pip.deref tbp with
    | none => .fault
    | some b =>
      match b.next with
      | none => .ret tbp
      | some n => addband_tail pip fuel n

/-- The operation `prdic_addband`; returns the new state and the `int` result.
The band obtained from `malloc` lives at the first unused address. -/
def prdic_addband (fuel : Nat) (pip : prdic_inst) (malloc_ok : Bool) (freq_hz : Rat) :
    Outcome (prdic_inst × Int) :=
  if !malloc_ok then .ret (pip, -1)
  else
    let bp := pip.heap.length + 1
    let b0 := band_init { band_zero with epoch := pip.bands.epoch } freq_hz
    let pip1 : prdic_inst := { pip with heap := pip.heap ++ [b0] }
    match addband_tail pip1 fuel 0 with
    | .ret tbp =>
      match pip1.deref tbp with
      | none => .fault
      | some t =>
        let b1 := { b0 with id := t.id + 1 }
        let pip2 := pip1.store bp b1
        match pip2.deref tbp with
        | none => .fault
        | some t2 =>
          if t2.next ≠ none then .assert_fail
          else .ret (pip2.store tbp { t2 with next := some bp }, b1.id)
    | .assert_fail => .assert_fail
    | .aborted => .aborted
    | .fault => .fault
    | .timeout => .timeout

/-- The static `band_set_epoch`, on the band at address `bp`. -/
def band_set_epoch (pip : prdic_inst) (bp : Nat) (epoch : timespec) : Option prdic_inst :=
  match pip.deref bp with
  | none => none
  | some b =>
    some (pip.store bp { b with epoch := epoch, phase_detector := ⟨⟨0, 0⟩⟩ })

/-- The loop of `prdic_useband`:
`for (tbp = &pip->bands[0]; tbp != NULL; tbp = tbp->next) if (tbp->id == bnum) break;`
started at `tbp`, at most `fuel` tests of the loop condition. -/
def useband_find (pip : prdic_inst) (bnum : Int) : Nat → Option Nat → Outcome (Option Nat)
  | 0, _ => .timeout
  | _ + 1, none => .ret none
  | fuel + 1, some a =>
    match pip.deref a with
    | none => .fault
    | some b => if b.id = bnum then .ret (some a) else useband_find pip bnum fuel b.next

/-- The operation `prdic_useband`. -/
def prdic_useband (E : prdic_deps) (fuel : Nat) (pip : prdic_inst) (bnum : Int) :
    Outcome prdic_inst :=
  match pip.deref pip.ab with
  | none => .fault
  | some ab =>
    if bnum = ab.id then .ret pip
    else
      match useband_find pip bnum fuel (some 0) with
      | .ret none => .assert_fail
      | .ret (some tbp) =>
        let tepoch : timespec := ⟨SEC ab.last_tclk, 0⟩
        let nepoch := E.timespecmul tepoch ab.period
        let nepoch := E.timespecadd nepoch ab.epoch
        match band_set_epoch pip tbp nepoch with
        | none => .fault
        | some pip1 => .ret { pip1 with ab := tbp }
      | .assert_fail => .assert_fail
      | .aborted => .aborted
      | .fault => .fault
      | .timeout => .timeout

/-- The retry loop around `nanosleep` in `prdic_procrastinate`.  Each element
of the list is what one call of `nanosleep` delivers: its return value and the
remaining time it leaves in `tremain`.  `none` when the answers run out before
the loop condition fails. -/
def sleep_loop : List (Int × timespec) → timespec → Option timespec
  | [], _ => none
  | (rval, trem) :: rest, _tremain =>
    if rval < 0 ∧ ¬ timespeciszero trem = true then sleep_loop rest trem else some trem

/-- The operation `prdic_procrastinate`: `sleeps` are the answers of
`nanosleep`, `clock` the reading of the monotonic clock after the sleep. -/
def prdic_procrastinate (E : prdic_deps) (pip : prdic_inst)
    (sleeps : List (Int × timespec)) (clock : Option timespec) : Outcome (prdic_inst × Int) :=
  match pip.deref pip.ab with
  | none => .fault
  | some ab =>
    let add_delay := E.freqoff_to_period ab.freq_hz 1 ab.loop_error.lastval
    match sleep_loop sleeps (dtime2timespec add_delay) with
    | none => .timeout
    | some _ =>
      match getttime clock timespec_zero true with
      | .ret (_, eptime) =>
        let eptime := E.timespecsub eptime ab.epoch
        let last_tclk := E.timespecmul eptime ab.tfreq_hz
        let r := E.PFD_get_error ab.phase_detector last_tclk
        let eval := r.1
        let loop_error :=
          if eval ≠ 0 then recfilter_apply ab.loop_error (E.sigmoid eval) else ab.loop_error
        .ret (pip.store pip.ab
          { ab with last_tclk := last_tclk, phase_detector := r.2, loop_error := loop_error }, 0)
      | .assert_fail => .assert_fail
      | .aborted => .aborted
      | .fault => .fault
      | .timeout => .timeout

/-- The operation `prdic_set_fparams`. -/
def prdic_set_fparams (pip : prdic_inst) (fcoef : Rat) : Outcome prdic_inst :=
  match pip.deref pip.ab with
  | none => .fault
  | some ab =>
    if ab.loop_error.lastval ≠ 0 then .assert_fail
    else
      match recfilter_adjust ab.loop_error fcoef with
      | .ret f => .ret (pip.store pip.ab { ab with loop_error := f })
      | .assert_fail => .assert_fail
      | .aborted => .aborted
      | .fault => .fault
      | .timeout => .timeout

/-- The operation `prdic_set_epoch`. -/
def prdic_set_epoch (pip : prdic_inst) (tp : timespec) : Outcome prdic_inst :=
  match band_set_epoch pip pip.ab tp with
  | none => .fault
  | some pip1 => .ret pip1

/-- The query `prdic_getncycles_ref`. -/
def prdic_getncycles_ref (pip : prdic_inst) : Outcome Int :=
  match pip.deref pip.ab with
  | none => .fault
  | some ab => .ret (SEC ab.last_tclk)

/-! ## The frequency-detector control loop of `prdic_main.c` -/

/-- The frequency detector state `freq_detector` of a band; `prdic_main.c`
hands it to `_prdic_FD_get_error` and prints its `last_tclk`. -/
structure FD where
  last_tclk : timespec
deriving DecidableEq, Repr

/-- The fields of `struct prdic_band` that `prdic_main.c` reads and writes; in
this generation of the structure `period` is a `double`. -/
structure prdic_band_FD where
  period : Rat
  tfreq_hz : timespec
  epoch : timespec
  loop_error : recfilter
  add_delay : Rat
  add_delay_fltrd : recfilter
  sysload_fltrd : recfilter
  freq_detector : FD
  last_tclk : timespec
deriving DecidableEq, Repr

/-- The instance as `_prdic_procrastinate_FD` sees it: the function only goes
through `pip->ab`, so the instance is represented by its active band. -/
structure prdic_inst_FD where
  ab : prdic_band_FD
deriving DecidableEq, Repr

/-- What `prdic_main.c` takes from headers that are not among the sources, and
from libm. -/
structure prdic_deps_FD where
  /-- The update `timespecsub(vvp, uvp)`: the new value of `*vvp`. -/
  timespecsub : timespec → timespec → timespec
  /-- The product `timespecmul(rvp, vvp, uvp)`: the value stored in `*rvp`. -/
  timespecmul : timespec → timespec → timespec
  /-- The call `_prdic_FD_get_error(fd, tclk)`: the raw error and the new detector. -/
  FD_get_error : FD → timespec → Rat × FD
  /-- The error function `erf` of libm. -/
  erf : Rat → Rat
  /-- The rounding of the exact result of a `double` operation to a `double`. -/
  fl : Rat → Rat
  /-- The call `_prdic_recfilter_apply(f, x)`: the new state of the filter. -/
  recfilter_apply : recfilter → Rat → recfilter

/-- The control loop `_prdic_procrastinate_FD` of `prdic_main.c`: `sleeps` are
the answers of `nanosleep`, `clock` the reading of the monotonic clock. -/
def _prdic_procrastinate_FD (E : prdic_deps_FD) (pip : prdic_inst_FD)
    (sleeps : List (Int × timespec)) (clock : Option timespec) :
    Outcome (prdic_inst_FD × Int) :=
  let ab := pip.ab
  let slept : Option timespec :=
    if ab.add_delay_fltrd.lastval ≤ 0 then some timespec_zero
    else sleep_loop sleeps (dtime2timespec ab.add_delay_fltrd.lastval)
  match slept with
  | none => .timeout
  | some _ =>
    match getttime clock timespec_zero true with
    | .ret (_, eptime) =>
      let eptime := E.timespecsub eptime ab.epoch
      let last_tclk := E.timespecmul eptime ab.tfreq_hz
      let r := E.FD_get_error ab.freq_detector last_tclk
      let eval := r.1
      let eval := E.fl (ab.loop_error.lastval + E.erf (E.fl (eval - ab.loop_error.lastval)))
      let loop_error := E.recfilter_apply ab.loop_error eval
      let add_delay := E.fl (ab.add_delay_fltrd.lastval + E.fl (eval * ab.period))
      let add_delay_fltrd := E.recfilter_apply ab.add_delay_fltrd add_delay
      let add_delay_fltrd : recfilter :=
        if add_delay_fltrd.lastval < 0 then { add_delay_fltrd with lastval := 0 }
        else if add_delay_fltrd.lastval > ab.period then
          { add_delay_fltrd with lastval := ab.period }
        else add_delay_fltrd
      let teval : Rat :=
        if add_delay_fltrd.lastval > 0 then
          E.fl (1 - E.fl (add_delay_fltrd.lastval / ab.period))
        else E.fl (1 - loop_error.lastval)
      let sysload_fltrd := E.recfilter_apply ab.sysload_fltrd teval
      .ret ({ ab := { ab with
                last_tclk := last_tclk, freq_detector := r.2, loop_error := loop_error,
                add_delay := add_delay, add_delay_fltrd := add_delay_fltrd,
                sysload_fltrd := sysload_fltrd } }, 0)
    | .assert_fail => .assert_fail
    | .aborted => .aborted
    | .fault => .fault
    | .timeout => .timeout

/-! ## The band list -/

/-- The band list seen from the pointer `p`: following `next` from `p` ends at
`NULL`, and `l` lists the addresses met on the way, each with its band. -/
inductive Chain (pip : prdic_inst) : Option Nat → List (Nat × prdic_band) → Prop
  | nil : Chain pip none []
  | cons {a : Nat} {b : prdic_band} {l : List (Nat × prdic_band)} :
      pip.deref a = some b → Chain pip b.next l → Chain pip (some a) ((a, b) :: l)

/-- The band list computed: at most `fuel` bands from the pointer `p`. -/
def band_walk (pip : prdic_inst) : Nat → Option Nat → Option (List (Nat × prdic_band))
  | _, none => some []
  | 0, some _ => none
  | fuel + 1, some a =>
    match pip.deref a with
    | none => none
    | some b =>
      match band_walk pip fuel b.next with
      | none => none
      | some l => some ((a, b) :: l)

/-- The ids of a band list, in list order. -/
def ids_of (l : List (Nat × prdic_band)) : List Int := l.map (fun x => x.2.id)

/-- The addresses of a band list, in list order. -/
def addrs_of (l : List (Nat × prdic_band)) : List Nat := l.map (fun x => x.1)

/-- The invariant of an instance whose band list is `l`: the list starts at
`&bands[0]` and ends at `NULL`, ids strictly increase along it, and the active
pointer is the address of one of its bands. -/
structure inst_inv (pip : prdic_inst) (l : List (Nat × prdic_band)) : Prop where
  chain : Chain pip (some 0) l
  ids_inc : (ids_of l).Pairwise (fun i j => i < j)
  ab_mem : pip.ab ∈ addrs_of l

/-- The driver `N successive successful prdic_addband calls`: one call per
frequency, `malloc` delivering each time; collects the values returned. -/
def addband_seq (fuel : Nat) : prdic_inst → List Rat → Outcome (prdic_inst × List Int)
  | pip, [] => .ret (pip, [])
  | pip, f :: fs =>
    match prdic_addband fuel pip true f with
    | .ret (pip1, r) =>
      match addband_seq fuel pip1 fs with
      | .ret (pip2, rs) => .ret (pip2, r :: rs)
      | .assert_fail => .assert_fail
      | .aborted => .aborted
      | .fault => .fault
      | .timeout => .timeout
    | .assert_fail => .assert_fail
    | .aborted => .aborted
    | .fault => .fault
    | .timeout => .timeout

/-- The states an instance can be in: what `prdic_init` returns, and what any
of `prdic_addband`, `prdic_useband`, `prdic_set_epoch`, `prdic_set_fparams` and
`prdic_procrastinate` returns on such a state.  Calls that do not return (a
failed assertion, an abort) lead nowhere. -/
inductive Reachable (E : prdic_deps) : prdic_inst → Prop
  | init {malloc_ok : Bool} {clock : Option timespec} {freq_hz off : Rat} {pip : prdic_inst} :
      prdic_init E malloc_ok clock freq_hz off = .ret (some pip) → Reachable E pip
  | addband {fuel : Nat} {pip pip' : prdic_inst} {malloc_ok : Bool} {freq_hz : Rat} {r : Int} :
      Reachable E pip → prdic_addband fuel pip malloc_ok freq_hz = .ret (pip', r) →
      Reachable E pip'
  | useband {fuel : Nat} {pip pip' : prdic_inst} {bnum : Int} :
      Reachable E pip → prdic_useband E fuel pip bnum = .ret pip' → Reachable E pip'
  | set_epoch {pip pip' : prdic_inst} {tp : timespec} :
      Reachable E pip → prdic_set_epoch pip tp = .ret pip' → Reachable E pip'
  | set_fparams {pip pip' : prdic_inst} {fcoef : Rat} :
      Reachable E pip → prdic_set_fparams pip fcoef = .ret pip' → Reachable E pip'
  | procrastinate {pip pip' : prdic_inst} {sleeps : List (Int × timespec)}
      {clock : Option timespec} {r : Int} :
      Reachable E pip → prdic_procrastinate E pip sleeps clock = .ret (pip', r) →
      Reachable E pip'

/-- Successive `prdic_procrastinate` calls, one per element of the list: the
answers of `nanosleep` and the clock reading of that call. -/
def procrastinate_seq (E : prdic_deps) :
    prdic_inst → List (List (Int × timespec) × timespec) → Outcome prdic_inst
  | pip, [] => .ret pip
  | pip, c :: cs =>
    match prdic_procrastinate E pip c.1 (some c.2) with
    | .ret (pip1, _) => procrastinate_seq E pip1 cs
    | .assert_fail => .assert_fail
    | .aborted => .aborted
    | .fault => .fault
    | .timeout => .timeout

/-! ## A concrete set of collaborators -/

/-- A `timespec` as a count of nanoseconds. -/
def ts_to_ns (t : timespec) : Int := t.tv_sec * NSEC_IN_SEC + t.tv_nsec

/-- The normalised `timespec` of a count of nanoseconds. -/
def ts_of_ns (n : Int) : timespec := ⟨n / NSEC_IN_SEC, n % NSEC_IN_SEC⟩

/-- A `timespec` as a rational number of seconds (`timespec2dtime`). -/
def timespec2dtime (t : timespec) : Rat := (ts_to_ns t : Rat) / (NSEC_IN_SEC : Rat)

/-- Modelled from the spec: the collaborators of the two headers that are not
among the sources, as the specification describes them.  Time arithmetic is
exact fixed-point arithmetic on nanoseconds; the detector returns measured
minus target and moves its target one cycle on; the squashing function is
`x / (1 + |x|)`; the sleep duration is one nominal cycle scaled by the error.
The theorems below hold for every `prdic_deps`; this one serves to run the
code on concrete inputs. -/
def deps_spec : prdic_deps where
  timespecadd a b := ts_of_ns (ts_to_ns a + ts_to_ns b)
  timespecsub a b := ts_of_ns (ts_to_ns a - ts_to_ns b)
  timespecmul a b := ts_of_ns (ts_to_ns a * ts_to_ns b / NSEC_IN_SEC)
  PFD_get_error pfd tclk :=
    (timespec2dtime tclk - timespec2dtime pfd.target_tclk,
      ⟨⟨pfd.target_tclk.tv_sec + 1, pfd.target_tclk.tv_nsec⟩⟩)
  sigmoid x := x / (1 + |x|)
  freqoff_to_period freq_0 foff_c foff_x := 1 / freq_0 * (1 + foff_c * foff_x)

/-- Modelled from the spec: collaborators for the frequency-detector loop, to
run it on concrete inputs.  The detector returns measured minus its stored
tick count and stores the measurement; `erf` is replaced by a rational function
with the same shape (odd, increasing, saturating at -1 and 1); the filter is
the one of the specification; arithmetic is exact (`fl` is the identity). -/
def deps_FD_spec : prdic_deps_FD where
  timespecsub a b := ts_of_ns (ts_to_ns a - ts_to_ns b)
  timespecmul a b := ts_of_ns (ts_to_ns a * ts_to_ns b / NSEC_IN_SEC)
  FD_get_error fd tclk := (timespec2dtime tclk - timespec2dtime fd.last_tclk, ⟨tclk⟩)
  erf x := max (-1) (min 1 x)
  fl x := x
  recfilter_apply := recfilter_apply

/-- Rounding of a rational to the nearest integer, ties to the even one. -/
def round_even (q : Rat) : Int :=
  if q - (⌊q⌋ : Int) < 1 / 2 then ⌊q⌋
  else if 1 / 2 < q - (⌊q⌋ : Int) then ⌊q⌋ + 1
  else if ⌊q⌋ % 2 = 0 then ⌊q⌋ else ⌊q⌋ + 1

/-- The binary64 value nearest to `x` (IEEE 754 round to nearest, ties to
even): a significand of 53 bits at the binary exponent of `x`.  The exponent
range is not bounded, so there is no overflow and there are no subnormals. -/
def round_b64 (x : Rat) : Rat :=
  if x = 0 then 0
  else (round_even (x / (2 : Rat) ^ (Int.log 2 |x| - 52)) : Rat) *
    (2 : Rat) ^ (Int.log 2 |x| - 52)

/-- Modelled from the spec: the filter update of the specification,
`lastval = coefficient*lastval + (1-coefficient)*sample`, with every operation
rounded to binary64. -/
def recfilter_apply_b64 (f : recfilter) (x : Rat) : recfilter :=
  { f with
    lastval := round_b64 (round_b64 (f.coefficient * f.lastval) +
      round_b64 (round_b64 (1 - f.coefficient) * x)) }

/-- Modelled from the spec: the collaborators of `deps_FD_spec` in binary64
arithmetic: every arithmetic result is rounded by `round_b64`. -/
def deps_FD_b64 : prdic_deps_FD where
  timespecsub a b := ts_of_ns (ts_to_ns a - ts_to_ns b)
  timespecmul a b := ts_of_ns (ts_to_ns a * ts_to_ns b / NSEC_IN_SEC)
  FD_get_error fd tclk :=
    (round_b64 (round_b64 (timespec2dtime tclk) - round_b64 (timespec2dtime fd.last_tclk)),
      ⟨tclk⟩)
  erf x := round_b64 (max (-1) (min 1 x))
  fl := round_b64
  recfilter_apply := recfilter_apply_b64

/-! ## Auxiliary definitions used in the statements -/

/-- The band `prdic_addband` links in: zeroed, given the epoch of `bands[0]`,
initialised for `freq_hz`, with the id that follows the tail's. -/
def addband_new (pip : prdic_inst) (freq_hz : Rat) (tail_id : Int) : prdic_band :=
  { band_init { band_zero with epoch := pip.bands.epoch } freq_hz with id := tail_id + 1 }

/-- The instance right after the `malloc`, `memset` and `band_init` of
`prdic_addband`: the new band exists but is not linked yet. -/
def addband_alloc (pip : prdic_inst) (freq_hz : Rat) : prdic_inst :=
  { pip with heap := pip.heap ++ [band_init { band_zero with epoch := pip.bands.epoch } freq_hz] }

/-- The integers `0, 1, ..., n - 1` as band ids. -/
def id_range (n : Nat) : List Int := (List.range n).map Int.ofNat

/-- The epoch `prdic_useband` computes from the band that was active. -/
def useband_epoch (E : prdic_deps) (ab : prdic_band) : timespec :=
  E.timespecadd (E.timespecmul ⟨SEC ab.last_tclk, 0⟩ ab.period) ab.epoch

/-- The band `band_set_epoch` leaves in place of `bt`. -/
def set_epoch_band (bt : prdic_band) (epoch : timespec) : prdic_band :=
  { bt with epoch := epoch, phase_detector := ⟨⟨0, 0⟩⟩ }

/-- The instance `prdic_useband` leaves when it finds the band `bt` at `tbp`. -/
def useband_result (E : prdic_deps) (pip : prdic_inst) (ab : prdic_band) (tbp : Nat)
    (bt : prdic_band) : prdic_inst :=
  { pip.store tbp (set_epoch_band bt (useband_epoch E ab)) with ab := tbp }

/-- The tick count `prdic_procrastinate` measures on the band `ab` at the clock
reading `now`: `(now - epoch) * tfreq_hz`. -/
def measured_tclk (E : prdic_deps) (ab : prdic_band) (now : timespec) : timespec :=
  E.timespecmul (E.timespecsub now ab.epoch) ab.tfreq_hz

/-- The active band as `prdic_procrastinate` leaves it when the clock reads
`now`. -/
def procrastinate_band (E : prdic_deps) (ab : prdic_band) (now : timespec) : prdic_band :=
  { ab with
    last_tclk := measured_tclk E ab now
    phase_detector := (E.PFD_get_error ab.phase_detector (measured_tclk E ab now)).2
    loop_error :=
      if (E.PFD_get_error ab.phase_detector (measured_tclk E ab now)).1 ≠ 0
      then recfilter_apply ab.loop_error
        (E.sigmoid (E.PFD_get_error ab.phase_detector (measured_tclk E ab now)).1)
      else ab.loop_error }

/-- The band list `l` after the band at address `a` has been replaced by `b`. -/
def list_store (l : List (Nat × prdic_band)) (a : Nat) (b : prdic_band) :
    List (Nat × prdic_band) :=
  l.map (fun y => if y.1 = a then (y.1, b) else y)

/-! ## Example states -/

/-- A 10 Hz instance as `prdic_init` creates it at clock reading 100 s with no
offset. -/
def ex_fresh : prdic_inst :=
  { bands := { id := 0, freq_hz := 10, period := ⟨0, 100000000⟩, tfreq_hz := ⟨10, 0⟩,
               epoch := ⟨100, 0⟩, loop_error := ⟨24 / 25, 0⟩, phase_detector := ⟨⟨0, 0⟩⟩,
               last_tclk := ⟨0, 0⟩, next := none },
    heap := [], ab := 0 }

/-- The built-in band of `ex_fresh` after one `prdic_procrastinate` that read
the clock at 100.55 s: 5.5 cycles were measured. -/
def ex_band0 : prdic_band :=
  { id := 0, freq_hz := 10, period := ⟨0, 100000000⟩, tfreq_hz := ⟨10, 0⟩,
    epoch := ⟨100, 0⟩, loop_error := ⟨24 / 25, 11 / 325⟩, phase_detector := ⟨⟨1, 0⟩⟩,
    last_tclk := ⟨5, 500000000⟩, next := none }

/-- The instance `ex_fresh` after that `prdic_procrastinate` call. -/
def ex_run : prdic_inst := { bands := ex_band0, heap := [], ab := 0 }

/-- A 50 Hz band as `prdic_addband` creates it on `ex_run`. -/
def ex_band1 : prdic_band :=
  { id := 1, freq_hz := 50, period := ⟨0, 20000000⟩, tfreq_hz := ⟨50, 0⟩,
    epoch := ⟨100, 0⟩, loop_error := ⟨24 / 25, 0⟩, phase_detector := ⟨⟨0, 0⟩⟩,
    last_tclk := ⟨0, 0⟩, next := none }

/-- The instance `ex_run` after `prdic_addband(50.0)`: two bands, band 0 active. -/
def ex_two : prdic_inst :=
  { bands := { ex_band0 with next := some 1 }, heap := [ex_band1], ab := 0 }

/-- The band list of `ex_two`. -/
def ex_two_list : List (Nat × prdic_band) :=
  [(0, { ex_band0 with next := some 1 }), (1, ex_band1)]

/-- Band 1 of `ex_two` after `prdic_useband(1)`: its epoch is 100 s plus five
periods of band 0. -/
def ex_band1_sw : prdic_band := { ex_band1 with epoch := ⟨100, 500000000⟩ }

/-- The instance `ex_two` after `prdic_useband(1)`. -/
def ex_sw : prdic_inst :=
  { bands := { ex_band0 with next := some 1 }, heap := [ex_band1_sw], ab := 1 }

/-- Band 1 after a `prdic_procrastinate` that read the clock at 100.57 s. -/
def ex_band1_run : prdic_band :=
  { ex_band1_sw with
    loop_error := ⟨24 / 25, 7 / 225⟩, phase_detector := ⟨⟨1, 0⟩⟩,
    last_tclk := ⟨3, 500000000⟩ }

/-- The instance `ex_sw` after that `prdic_procrastinate` call. -/
def ex_sw_run : prdic_inst :=
  { bands := { ex_band0 with next := some 1 }, heap := [ex_band1_run], ab := 1 }

/-- Band 0 after switching back with `prdic_useband(0)`. -/
def ex_band0_back : prdic_band :=
  { ex_band0 with
    next := some 1, epoch := ⟨100, 560000000⟩, phase_detector := ⟨⟨0, 0⟩⟩ }

/-- The instance `ex_sw_run` after `prdic_useband(0)`. -/
def ex_back : prdic_inst := { bands := ex_band0_back, heap := [ex_band1_run], ab := 0 }

/-- Band 0 after a `prdic_procrastinate` that read the clock at 100.66 s. -/
def ex_band0_back_run : prdic_band :=
  { ex_band0_back with
    loop_error := ⟨24 / 25, 853 / 16250⟩, phase_detector := ⟨⟨1, 0⟩⟩, last_tclk := ⟨1, 0⟩ }

/-- The instance `ex_back` after that `prdic_procrastinate` call. -/
def ex_back_run : prdic_inst :=
  { bands := ex_band0_back_run, heap := [ex_band1_run], ab := 0 }

/-- A 1 Hz instance as `prdic_init(1.0, 1.0)` creates it at clock reading 100 s:
its epoch lies one second ahead. -/
def ex_late : prdic_inst :=
  { bands := { id := 0, freq_hz := 1, period := ⟨1, 0⟩, tfreq_hz := ⟨1, 0⟩,
               epoch := ⟨101, 0⟩, loop_error := ⟨24 / 25, 0⟩, phase_detector := ⟨⟨0, 0⟩⟩,
               last_tclk := ⟨0, 0⟩, next := none },
    heap := [], ab := 0 }

/-- The instance `ex_late` after `prdic_set_fparams(0.5)`. -/
def ex_late_set : prdic_inst :=
  { ex_late with bands := { ex_late.bands with loop_error := ⟨1 / 2, 0⟩ } }

/-- The instance `ex_late_set` after a `prdic_procrastinate` that read the
clock at 101 s, the epoch itself: no cycle has elapsed, the error is zero and
the filter was not applied. -/
def ex_late_run : prdic_inst :=
  { ex_late with
    bands := { ex_late.bands with loop_error := ⟨1 / 2, 0⟩, phase_detector := ⟨⟨1, 0⟩⟩ } }

/-- The instance `ex_late_run` after a second `prdic_set_fparams(0.25)`. -/
def ex_late_set2 : prdic_inst :=
  { ex_late with
    bands := { ex_late.bands with loop_error := ⟨1 / 4, 0⟩, phase_detector := ⟨⟨1, 0⟩⟩ } }

/-- The band list of `ex_sw`: band 1 is active and its epoch is 100.5 s. -/
def ex_sw_list : List (Nat × prdic_band) :=
  [(0, { ex_band0 with next := some 1 }), (1, ex_band1_sw)]

/-- A 10 Hz band of the frequency-detector generation whose smoothed extra delay
has reached the full period of 0.1 s. -/
def ex_FD : prdic_inst_FD :=
  { ab := { period := 1 / 10, tfreq_hz := ⟨10, 0⟩, epoch := ⟨100, 0⟩,
            loop_error := ⟨24 / 25, 0⟩, add_delay := 1 / 10,
            add_delay_fltrd := ⟨24 / 25, 1 / 10⟩, sysload_fltrd := ⟨24 / 25, 0⟩,
            freq_detector := ⟨⟨0, 0⟩⟩, last_tclk := ⟨0, 0⟩ } }

/-- An 8 Hz band of the frequency-detector generation (period 0.125 s) whose
smoothed extra delay has decayed to 2^-60 s; all its values are binary64
numbers. -/
def ex_FD_tiny : prdic_inst_FD :=
  { ab := { period := 1 / 8, tfreq_hz := ⟨8, 0⟩, epoch := ⟨100, 0⟩,
            loop_error := ⟨1 / 2, 0⟩, add_delay := 1 / 2 ^ 60,
            add_delay_fltrd := ⟨1 / 2, 1 / 2 ^ 60⟩, sysload_fltrd := ⟨1 / 2, 0⟩,
            freq_detector := ⟨⟨0, 0⟩⟩, last_tclk := ⟨0, 0⟩ } }

/-- The band of `ex_FD_tiny` after one `_prdic_procrastinate_FD` in binary64
arithmetic with the clock read at the epoch: the load filter took the sample
1. -/
def ex_FD_tiny_run : prdic_inst_FD :=
  { ab := { ex_FD_tiny.ab with sysload_fltrd := ⟨1 / 2, 1 / 2⟩ } }

/-! ## Memory lemmas -/

theorem deref_store (pip : prdic_inst) (a x : Nat) (b : prdic_band) :
    (pip.store a b).deref x =
      if x = a then (pip.deref a).map (fun _ => b) else pip.deref x := by
  cases a with
  | zero =>
    cases x with
    | zero => simp [prdic_inst.store, prdic_inst.deref]
    | succ j => simp [prdic_inst.store, prdic_inst.deref]
  | succ k =>
    cases x with
    | zero => simp [prdic_inst.store, prdic_inst.deref]
    | succ j =>
      simp only [prdic_inst.store, prdic_inst.deref, List.getElem?_set, Nat.succ.injEq]
      by_cases hjk : j = k
      · subst hjk
        by_cases hlt : j < pip.heap.length
        · simp [hlt]
        · simp [hlt, List.getElem?_eq_none (Nat.le_of_not_lt hlt)]
      · have hkj : ¬ k = j := fun h => hjk h.symm
        simp [hjk, hkj]

theorem store_ab (pip : prdic_inst) (a : Nat) (b : prdic_band) :
    (pip.store a b).ab = pip.ab := by
  cases a <;> rfl

theorem deref_append (pip : prdic_inst) (b0 : prdic_band) (x : Nat) :
    ({ pip with heap := pip.heap ++ [b0] } : prdic_inst).deref x =
      if x = pip.heap.length + 1 then some b0 else pip.deref x := by
  cases x with
  | zero => simp [prdic_inst.deref]
  | succ j =>
    simp only [prdic_inst.deref, Nat.succ.injEq]
    by_cases hj : j = pip.heap.length
    · subst hj; simp
    · simp only [hj, if_false]
      rcases Nat.lt_or_gt_of_ne hj with hlt | hgt
      · exact List.getElem?_append_left hlt
      · rw [List.getElem?_eq_none, List.getElem?_eq_none]
        · omega
        · simp; omega

theorem deref_fresh (pip : prdic_inst) : pip.deref (pip.heap.length + 1) = none := by
  simp [prdic_inst.deref]

/-! ## Band list lemmas -/

theorem Chain.nil_inv {pip : prdic_inst} {l : List (Nat × prdic_band)}
    (h : Chain pip none l) : l = [] := by
  cases h; rfl

theorem Chain.head_eq {pip : prdic_inst} {p : Option Nat} {x : Nat × prdic_band}
    {l : List (Nat × prdic_band)} (h : Chain pip p (x :: l)) : p = some x.1 := by
  cases h; rfl

theorem Chain.deref_of_mem {pip : prdic_inst} {p : Option Nat} {l : List (Nat × prdic_band)}
    (h : Chain pip p l) : ∀ x ∈ l, pip.deref x.1 = some x.2 := by
  induction h with
  | nil => intro x hx; cases hx
  | cons hd _ ih =>
    intro x hx
    rcases List.mem_cons.1 hx with rfl | hx
    · exact hd
    · exact ih x hx

theorem Chain.functional {pip : prdic_inst} {p : Option Nat} {l l' : List (Nat × prdic_band)}
    (h : Chain pip p l) (h' : Chain pip p l') : l = l' := by
  induction h generalizing l' with
  | nil => cases h'; rfl
  | cons hd _ ih =>
    cases h' with
    | cons hd' hc' =>
      rw [hd] at hd'
      cases hd'
      rw [ih hc']

/-- A band list survives any change of memory that keeps the `next` field of
each of its bands. -/
theorem Chain.map_update {pip : prdic_inst} (pip' : prdic_inst) {p : Option Nat}
    {l : List (Nat × prdic_band)} (g : Nat × prdic_band → prdic_band)
    (h : Chain pip p l) (hnext : ∀ x ∈ l, (g x).next = x.2.next)
    (hd' : ∀ x ∈ l, pip'.deref x.1 = some (g x)) :
    Chain pip' p (l.map (fun x => (x.1, g x))) := by
  induction h with
  | nil => exact Chain.nil
  | cons hd hc ih =>
    rename_i a b l0
    simp only [List.map_cons]
    refine Chain.cons (hd' (a, b) (List.mem_cons_self _ _)) ?_
    rw [hnext (a, b) (List.mem_cons_self _ _)]
    exact ih (fun x hx => hnext x (List.mem_cons_of_mem _ hx))
      (fun x hx => hd' x (List.mem_cons_of_mem _ hx))

theorem Chain.ext_deref {pip pip' : prdic_inst} {p : Option Nat}
    {l : List (Nat × prdic_band)} (h : Chain pip p l)
    (hd' : ∀ x ∈ l, pip'.deref x.1 = some x.2) : Chain pip' p l := by
  have := Chain.map_update pip' (fun x => x.2) h (fun _ _ => rfl) hd'
  simpa using this

theorem chain_of_walk (pip : prdic_inst) :
    ∀ (fuel : Nat) (p : Option Nat) (l : List (Nat × prdic_band)),
      band_walk pip fuel p = some l → Chain pip p l := by
  intro fuel
  induction fuel with
  | zero =>
    intro p l h
    cases p with
    | none => simp [band_walk] at h; subst h; exact Chain.nil
    | some a => simp [band_walk] at h
  | succ n ih =>
    intro p l h
    cases p with
    | none => simp [band_walk] at h; subst h; exact Chain.nil
    | some a =>
      simp only [band_walk] at h
      cases hd : pip.deref a with
      | none => simp [hd] at h
      | some b =>
        simp only [hd] at h
        cases hw : band_walk pip n b.next with
        | none => simp [hw] at h
        | some l0 =>
          simp only [hw, Option.some.injEq] at h
          subst h
          exact Chain.cons hd (ih _ _ hw)

theorem addband_tail_chain (pip : prdic_inst) :
    ∀ (l : List (Nat × prdic_band)) (a fuel : Nat), Chain pip (some a) l → l.length ≤ fuel →
      ∃ t, l.getLast? = some t ∧ t.2.next = none ∧ addband_tail pip fuel a = .ret t.1 := by
  intro l
  induction l with
  | nil => intro a fuel h; cases h
  | cons x l0 ih =>
    intro a fuel h hf
    cases h with
    | cons hd hc =>
      rename_i b
      cases fuel with
      | zero => simp at hf
      | succ n =>
        simp only [addband_tail, hd]
        cases hn : b.next with
        | none =>
          rw [hn] at hc
          have := hc.nil_inv
          subst this
          exact ⟨(a, b), rfl, hn, rfl⟩
        | some a1 =>
          rw [hn] at hc
          have hf' : l0.length ≤ n := by simpa using hf
          obtain ⟨t, ht, htn, hr⟩ := ih a1 n hc hf'
          refine ⟨t, ?_, htn, hr⟩
          cases l0 with
          | nil => cases hc
          | cons y l1 => simpa [List.getLast?_cons_cons] using ht

theorem useband_find_chain (pip : prdic_inst) (bnum : Int) :
    ∀ (l : List (Nat × prdic_band)) (p : Option Nat) (fuel : Nat),
      Chain pip p l → l.length < fuel →
      useband_find pip bnum fuel p =
        .ret ((l.find? (fun x => decide (x.2.id = bnum))).map (fun x => x.1)) := by
  intro l
  induction l with
  | nil =>
    intro p fuel h hf
    cases h
    cases fuel with
    | zero => simp at hf
    | succ n => simp [useband_find]
  | cons x l0 ih =>
    intro p fuel h hf
    cases h with
    | cons hd hc =>
      rename_i a b
      cases fuel with
      | zero => simp at hf
      | succ n =>
        simp only [useband_find, hd]
        by_cases hb : b.id = bnum
        · simp [hb]
        · have hf' : l0.length < n := by simpa using hf
          simp [hb, ih _ n hc hf']

/-- Linking a fresh band `b1` at address `n` behind the tail `t` of a band list
extends the list by that one band. -/
theorem Chain.link (pip : prdic_inst) {pip' : prdic_inst} {t n : Nat} {bt : prdic_band}
    (b1 : prdic_band)
    (hnext : bt.next = none) (hdt : pip.deref t = some bt) (hn1 : b1.next = none)
    (hfresh : pip.deref n = none)
    (hd' : ∀ x, pip'.deref x =
      if x = t then some { bt with next := some n }
      else if x = n then some b1 else pip.deref x) :
    ∀ {p : Option Nat} {l : List (Nat × prdic_band)}, Chain pip p l →
      l.getLast? = some (t, bt) →
      Chain pip' p (l.dropLast ++ [(t, { bt with next := some n }), (n, b1)]) := by
  have hnt : n ≠ t := by
    intro h; rw [h, hdt] at hfresh; cases hfresh
  intro p l h
  induction h with
  | nil => intro hl; simp at hl
  | cons hd hc ih =>
    rename_i a b l0
    intro hl
    cases l0 with
    | nil =>
      simp only [List.getLast?_singleton, Option.some.injEq, Prod.mk.injEq] at hl
      obtain ⟨rfl, rfl⟩ := hl
      simp only [List.dropLast_single, List.nil_append]
      refine Chain.cons (by rw [hd']; simp) ?_
      have hlast1 : Chain pip' (some n) [(n, b1)] :=
        Chain.cons (by rw [hd']; simp [hnt]) (by rw [hn1]; exact Chain.nil)
      exact hlast1
    | cons y l1 =>
      rw [List.getLast?_cons_cons] at hl
      have hbn : b.next = some y.1 := hc.head_eq
      have hat : a ≠ t := by
        intro h
        rw [h, hdt] at hd
        cases hd
        rw [hnext] at hbn
        cases hbn
      have han : a ≠ n := by
        intro h
        rw [h, hfresh] at hd
        cases hd
      simp only [List.dropLast_cons₂, List.cons_append]
      refine Chain.cons (by rw [hd']; simp [hat, han, hd]) ?_
      exact ih hl

/-- What `prdic_addband` does to an instance whose band list `l` ends at `NULL`. -/
theorem prdic_addband_chain {pip : prdic_inst} {l : List (Nat × prdic_band)} (fuel : Nat)
    (freq_hz : Rat) (hc : Chain pip (some 0) l) (hf : l.length ≤ fuel) :
    ∃ t bt pip', l.getLast? = some (t, bt) ∧
      prdic_addband fuel pip true freq_hz = .ret (pip', bt.id + 1) ∧
      Chain pip' (some 0)
        (l.dropLast ++ [(t, { bt with next := some (pip.heap.length + 1) }),
          (pip.heap.length + 1, addband_new pip freq_hz bt.id)]) ∧
      pip'.ab = pip.ab := by
  -- the freshly allocated band is not on the list
  have hfresh := deref_fresh pip
  have hne : ∀ x ∈ l, x.1 ≠ pip.heap.length + 1 := by
    intro x hx h
    have := hc.deref_of_mem x hx
    rw [h, hfresh] at this
    cases this
  have hda : ∀ x, (addband_alloc pip freq_hz).deref x =
      if x = pip.heap.length + 1
      then some (band_init { band_zero with epoch := pip.bands.epoch } freq_hz)
      else pip.deref x := fun x => deref_append pip _ x
  have hc1 : Chain (addband_alloc pip freq_hz) (some 0) l := by
    refine hc.ext_deref ?_
    intro x hx
    rw [hda, if_neg (hne x hx)]
    exact hc.deref_of_mem x hx
  obtain ⟨⟨t, bt⟩, hlast, htn, htail⟩ :=
    addband_tail_chain (addband_alloc pip freq_hz) l 0 fuel hc1 hf
  simp only at htn htail
  have htmem : (t, bt) ∈ l := List.mem_of_mem_getLast? hlast
  have hdt : pip.deref t = some bt := hc.deref_of_mem _ htmem
  have hdt1 : (addband_alloc pip freq_hz).deref t = some bt := hc1.deref_of_mem _ htmem
  have htne : t ≠ pip.heap.length + 1 := hne _ htmem
  have hd2 : ((addband_alloc pip freq_hz).store (pip.heap.length + 1)
      (addband_new pip freq_hz bt.id)).deref t = some bt := by
    rw [deref_store, if_neg htne, hdt1]
  refine ⟨t, bt, ((addband_alloc pip freq_hz).store (pip.heap.length + 1)
    (addband_new pip freq_hz bt.id)).store t
    { bt with next := some (pip.heap.length + 1) }, hlast, ?_, ?_, ?_⟩
  · simp only [prdic_addband, Bool.not_true, Bool.false_eq_true, if_false]
    split
    · rename_i tbp heq
      have h1 := heq.symm.trans htail
      simp only [Outcome.ret.injEq] at h1
      subst h1
      split
      · rename_i heq1
        have h2 := heq1.symm.trans hdt1
        cases h2
      · rename_i t1 heq1
        have h2 := heq1.symm.trans hdt1
        simp only [Option.some.injEq] at h2
        subst h2
        split
        · rename_i heq2
          have h3 := heq2.symm.trans hd2
          cases h3
        · rename_i t2 heq2
          have h3 := heq2.symm.trans hd2
          simp only [Option.some.injEq] at h3
          subst h3
          simp only [htn, ne_eq, not_true_eq_false, if_false]
          rfl
    all_goals (rename_i heq; have h1 := heq.symm.trans htail; cases h1)
  · refine Chain.link pip (addband_new pip freq_hz bt.id) htn hdt rfl hfresh ?_ hc hlast
    intro x
    simp only [deref_store, hda]
    by_cases hxt : x = t
    · subst hxt
      simp [htne, hdt]
    · by_cases hxn : x = pip.heap.length + 1
      · subst hxn
        simp [hxt]
      · simp [hxt, hxn]
  · rw [store_ab, store_ab]; rfl

/-! ## Band ids -/

theorem ids_of_append (l1 l2 : List (Nat × prdic_band)) :
    ids_of (l1 ++ l2) = ids_of l1 ++ ids_of l2 := by
  simp [ids_of]

theorem id_range_succ (n : Nat) : id_range (n + 1) = id_range n ++ [(n : Int)] := by
  simp [id_range, List.range_succ]

/-- The band list right after `prdic_init`. -/
theorem prdic_init_chain (E : prdic_deps) (clock : timespec) (freq_hz off : Rat) :
    ∃ pip, prdic_init E true (some clock) freq_hz off = .ret (some pip) ∧
      Chain pip (some 0) [(0, pip.bands)] ∧ pip.bands.id = 0 ∧ pip.bands.next = none ∧
      pip.ab = 0 ∧ pip.heap = [] := by
  refine ⟨_, rfl, ?_, rfl, rfl, rfl, rfl⟩
  exact Chain.cons rfl Chain.nil

/-- Successive successful `prdic_addband` calls on an instance whose ids are
`0..k` return `k+1, k+2, ...` and extend the list of ids accordingly. -/
theorem addband_seq_ids (fuel : Nat) :
    ∀ (freqs : List Rat) (pip : prdic_inst) (l : List (Nat × prdic_band)) (k : Nat),
      Chain pip (some 0) l → ids_of l = id_range (k + 1) → k + freqs.length ≤ fuel →
      ∃ pipN lN, addband_seq fuel pip freqs =
          .ret (pipN, (List.range' (k + 1) freqs.length).map Int.ofNat) ∧
        Chain pipN (some 0) lN ∧ ids_of lN = id_range (k + 1 + freqs.length) := by
  intro freqs
  induction freqs with
  | nil =>
    intro pip l k hc hids _
    exact ⟨pip, l, rfl, hc, by simpa using hids⟩
  | cons f fs ih =>
    intro pip l k hc hids hf
    have hlen : l.length = k + 1 := by
      have := congrArg List.length hids
      simp only [ids_of, id_range, List.length_map, List.length_range] at this
      exact this
    simp only [List.length_cons] at hf
    obtain ⟨t, bt, pip1, hlast, hadd, hc1, _⟩ :=
      prdic_addband_chain fuel f hc (by omega)
    obtain ⟨ys, rfl⟩ := List.getLast?_eq_some_iff.1 hlast
    rw [ids_of_append, id_range_succ] at hids
    have hsplit := List.append_inj' hids (by simp [ids_of])
    have hbt : bt.id = (k : Int) := by
      have := hsplit.2
      simpa [ids_of] using this
    rw [List.dropLast_concat] at hc1
    have hids1 : ids_of (ys ++ [(t, { bt with next := some (pip.heap.length + 1) }),
        (pip.heap.length + 1, addband_new pip f bt.id)]) = id_range (k + 1 + 1) := by
      rw [ids_of_append, hsplit.1, id_range_succ (k + 1), id_range_succ k]
      simp [ids_of, addband_new, band_init, hbt]
    obtain ⟨pipN, lN, hseq, hcN, hidsN⟩ := ih pip1 _ (k + 1) hc1 hids1 (by omega)
    refine ⟨pipN, lN, ?_, hcN, ?_⟩
    · simp only [addband_seq, hadd, hseq, List.length_cons]
      rw [List.range'_succ]
      simp [hbt]
    · rw [hidsN]
      congr 1
      simp only [List.length_cons]
      omega

/-! ## `prdic_useband` on a terminated band list -/

theorem deref_with_ab (q : prdic_inst) (a : Nat) :
    ({ q with ab := a } : prdic_inst).deref = q.deref := by
  funext y; cases y <;> rfl

theorem prdic_useband_chain (E : prdic_deps) {fuel : Nat} {pip : prdic_inst}
    {l : List (Nat × prdic_band)} {bnum : Int} {ab : prdic_band}
    (hc : Chain pip (some 0) l) (hf : l.length < fuel)
    (hab : pip.deref pip.ab = some ab) (hne : bnum ≠ ab.id) :
    prdic_useband E fuel pip bnum =
      match l.find? (fun x => decide (x.2.id = bnum)) with
      | none => .assert_fail
      | some x => .ret (useband_result E pip ab x.1 x.2) := by
  simp only [prdic_useband, hab, if_neg hne, useband_find_chain pip bnum l _ fuel hc hf]
  cases hfind : l.find? (fun x => decide (x.2.id = bnum)) with
  | none => rfl
  | some x =>
    have hd := hc.deref_of_mem x (List.mem_of_find?_eq_some hfind)
    simp only [Option.map_some', band_set_epoch, hd]
    rfl

theorem find_id_isSome (l : List (Nat × prdic_band)) (bnum : Int) :
    (∃ x, l.find? (fun x => decide (x.2.id = bnum)) = some x) ↔ bnum ∈ ids_of l := by
  constructor
  · rintro ⟨x, hx⟩
    have h1 := List.mem_of_find?_eq_some hx
    have h2 := List.find?_some hx
    simp only [decide_eq_true_eq] at h2
    exact List.mem_map.2 ⟨x, h1, h2⟩
  · intro h
    obtain ⟨x, hx, hid⟩ := List.mem_map.1 h
    have : (l.find? (fun x => decide (x.2.id = bnum))).isSome = true :=
      List.find?_isSome.2 ⟨x, hx, by simpa using hid⟩
    exact Option.isSome_iff_exists.1 this

theorem active_id_mem {pip : prdic_inst} {l : List (Nat × prdic_band)} {ab : prdic_band}
    (hc : Chain pip (some 0) l) (hmem : pip.ab ∈ addrs_of l)
    (hab : pip.deref pip.ab = some ab) : ab.id ∈ ids_of l := by
  obtain ⟨x, hx, hxa⟩ := List.mem_map.1 hmem
  have hd := hc.deref_of_mem x hx
  rw [hxa, hab] at hd
  cases hd
  exact List.mem_map.2 ⟨x, hx, rfl⟩

/-! ## Writing to a band of the list -/

theorem chain_with_ab {q : prdic_inst} {a : Nat} {p : Option Nat}
    {l : List (Nat × prdic_band)} (h : Chain q p l) :
    Chain ({ q with ab := a } : prdic_inst) p l := by
  refine h.ext_deref ?_
  intro x hx
  rw [deref_with_ab]
  exact h.deref_of_mem x hx

/-- Replacing the band at `a` by one with the same `next` keeps the band list,
up to the replaced band. -/
theorem chain_store {pip : prdic_inst} {p : Option Nat} {l : List (Nat × prdic_band)}
    {a : Nat} {b b' : prdic_band} (hc : Chain pip p l) (hd : pip.deref a = some b)
    (hn : b'.next = b.next) : Chain (pip.store a b') p (list_store l a b') := by
  have h := Chain.map_update (pip.store a b')
    (fun y => if y.1 = a then b' else y.2) hc ?_ ?_
  · have hl : list_store l a b' = l.map (fun x => (x.1, if x.1 = a then b' else x.2)) := by
      unfold list_store
      refine List.map_congr_left ?_
      intro y _
      by_cases hy : y.1 = a <;> simp [hy]
    rw [hl]
    exact h
  · intro y hy
    by_cases hya : y.1 = a
    · have := hc.deref_of_mem y hy
      rw [hya, hd] at this
      cases this
      simp [hya, hn]
    · simp [hya]
  · intro y hy
    rw [deref_store]
    by_cases hya : y.1 = a
    · simp [hya, hd]
    · simp [hya, hc.deref_of_mem y hy]

theorem addrs_of_list_store (l : List (Nat × prdic_band)) (a : Nat) (b : prdic_band) :
    addrs_of (list_store l a b) = addrs_of l := by
  unfold addrs_of list_store
  rw [List.map_map]
  refine List.map_congr_left ?_
  intro y _
  by_cases hy : y.1 = a <;> simp [hy]

theorem ids_of_list_store {pip : prdic_inst} {p : Option Nat} {l : List (Nat × prdic_band)}
    {a : Nat} {b b' : prdic_band} (hc : Chain pip p l) (hd : pip.deref a = some b)
    (hid : b'.id = b.id) : ids_of (list_store l a b') = ids_of l := by
  unfold ids_of list_store
  rw [List.map_map]
  refine List.map_congr_left ?_
  intro y hy
  by_cases hya : y.1 = a
  · have := hc.deref_of_mem y hy
    rw [hya, hd] at this
    cases this
    simp [hya, hid]
  · simp [hya]

/-- The invariant survives a write that keeps `next` and `id` of the band. -/
theorem inst_inv_store {pip : prdic_inst} {l : List (Nat × prdic_band)}
    {a : Nat} {b : prdic_band} (b' : prdic_band) (hinv : inst_inv pip l) (hd : pip.deref a = some b)
    (hn : b'.next = b.next) (hid : b'.id = b.id) :
    inst_inv (pip.store a b') (list_store l a b') where
  chain := chain_store hinv.chain hd hn
  ids_inc := by rw [ids_of_list_store hinv.chain hd hid]; exact hinv.ids_inc
  ab_mem := by rw [addrs_of_list_store, store_ab]; exact hinv.ab_mem

/-- The invariant survives moving the active pointer to a band of the list. -/
theorem inst_inv_with_ab {pip : prdic_inst} {l : List (Nat × prdic_band)} {a : Nat}
    (hinv : inst_inv pip l) (ha : a ∈ addrs_of l) :
    inst_inv ({ pip with ab := a } : prdic_inst) l where
  chain := chain_with_ab hinv.chain
  ids_inc := hinv.ids_inc
  ab_mem := ha

theorem ids_nodup {l : List (Nat × prdic_band)}
    (h : (ids_of l).Pairwise (fun i j => i < j)) : (ids_of l).Nodup :=
  h.imp (fun h => ne_of_lt h)

theorem addrs_nodup {pip : prdic_inst} {p : Option Nat} {l : List (Nat × prdic_band)}
    (hc : Chain pip p l) (h : (ids_of l).Pairwise (fun i j => i < j)) :
    (addrs_of l).Nodup := by
  have hl : l.Nodup := List.Nodup.of_map _ (ids_nodup h)
  refine List.Nodup.map_on ?_ hl
  intro x hx y hy hxy
  have h1 := hc.deref_of_mem x hx
  have h2 := hc.deref_of_mem y hy
  rw [hxy, h2] at h1
  cases x; cases y
  simp only at hxy h1
  cases h1
  rw [hxy]

/-- With distinct ids, looking a band of the list up by its id finds it. -/
theorem find_id_unique {l : List (Nat × prdic_band)}
    (h : (ids_of l).Pairwise (fun i j => i < j)) {y : Nat × prdic_band} (hy : y ∈ l) :
    l.find? (fun x => decide (x.2.id = y.2.id)) = some y := by
  obtain ⟨z, hz⟩ := (find_id_isSome l y.2.id).2 (List.mem_map.2 ⟨y, hy, rfl⟩)
  have hzl := List.mem_of_find?_eq_some hz
  have hzid := List.find?_some hz
  simp only [decide_eq_true_eq] at hzid
  have := List.inj_on_of_nodup_map (ids_nodup h) hzl hy hzid
  rw [hz, this]

/-- The active band is on the list. -/
theorem active_mem {pip : prdic_inst} {l : List (Nat × prdic_band)} {ab : prdic_band}
    (hc : Chain pip (some 0) l) (hmem : pip.ab ∈ addrs_of l)
    (hab : pip.deref pip.ab = some ab) : (pip.ab, ab) ∈ l := by
  obtain ⟨x, hx, hxa⟩ := List.mem_map.1 hmem
  have hd := hc.deref_of_mem x hx
  rw [hxa, hab] at hd
  cases hd
  cases x
  simp only at hxa
  rw [← hxa]
  exact hx

/-- The invariant after a `prdic_useband` that found the band `x`. -/
theorem inst_inv_useband (E : prdic_deps) {pip : prdic_inst} {l : List (Nat × prdic_band)}
    (ab : prdic_band) {x : Nat × prdic_band} (hinv : inst_inv pip l) (hx : x ∈ l) :
    inst_inv (useband_result E pip ab x.1 x.2)
      (list_store l x.1 (set_epoch_band x.2 (useband_epoch E ab))) := by
  have hd := hinv.chain.deref_of_mem x hx
  have h1 := inst_inv_store (set_epoch_band x.2 (useband_epoch E ab)) hinv hd rfl rfl
  refine inst_inv_with_ab h1 ?_
  rw [addrs_of_list_store]
  exact List.mem_map_of_mem _ hx

/-! ## `prdic_procrastinate` and `prdic_set_fparams` on a valid active pointer -/

theorem prdic_procrastinate_ret (E : prdic_deps) {pip : prdic_inst} {ab : prdic_band}
    {sleeps : List (Int × timespec)} (now : timespec)
    (hab : pip.deref pip.ab = some ab) (hsleep : ∀ t, sleep_loop sleeps t ≠ none) :
    prdic_procrastinate E pip sleeps (some now) =
      .ret (pip.store pip.ab (procrastinate_band E ab now), 0) := by
  cases hs : sleep_loop sleeps
      (dtime2timespec (E.freqoff_to_period ab.freq_hz 1 ab.loop_error.lastval)) with
  | none => exact absurd hs (hsleep _)
  | some r =>
    simp only [prdic_procrastinate, hab, hs, getttime]
    rfl

theorem prdic_set_fparams_ret (pip : prdic_inst) {ab : prdic_band} (fcoef : Rat)
    (hab : pip.deref pip.ab = some ab) (h0 : ab.loop_error.lastval = 0) :
    prdic_set_fparams pip fcoef =
      .ret (pip.store pip.ab
        { ab with loop_error := { ab.loop_error with coefficient := fcoef } }) := by
  simp [prdic_set_fparams, hab, h0, recfilter_adjust]

theorem prdic_set_fparams_fail (pip : prdic_inst) {ab : prdic_band} (fcoef : Rat)
    (hab : pip.deref pip.ab = some ab) (h0 : ab.loop_error.lastval ≠ 0) :
    prdic_set_fparams pip fcoef = .assert_fail := by
  simp [prdic_set_fparams, hab, h0]

/-- A run of `prdic_procrastinate` calls keeps the invariant, the active
pointer, the id of the active band, and every band that is not active. -/
theorem procrastinate_seq_keeps (E : prdic_deps) :
    ∀ (calls : List (List (Int × timespec) × timespec)) (pip : prdic_inst)
      (l : List (Nat × prdic_band)) (a : Nat) (A b : prdic_band),
      inst_inv pip l → (a, A) ∈ l → a ≠ pip.ab → pip.deref pip.ab = some b →
      (∀ c ∈ calls, ∀ t, sleep_loop c.1 t ≠ none) →
      ∃ pip' l' b', procrastinate_seq E pip calls = .ret pip' ∧ inst_inv pip' l' ∧
        l'.length = l.length ∧ (a, A) ∈ l' ∧ pip'.ab = pip.ab ∧
        pip'.deref pip'.ab = some b' ∧ b'.id = b.id := by
  intro calls
  induction calls with
  | nil =>
    intro pip l a A b hinv hA _ hb _
    exact ⟨pip, l, b, rfl, hinv, rfl, hA, rfl, hb, rfl⟩
  | cons c cs ih =>
    intro pip l a A b hinv hA hne hb hs
    have hstep := prdic_procrastinate_ret E c.2 hb (hs c (List.mem_cons_self _ _))
    have hinv1 := inst_inv_store (procrastinate_band E b c.2) hinv hb rfl rfl
    have hA1 : (a, A) ∈ list_store l pip.ab (procrastinate_band E b c.2) :=
      List.mem_map.2 ⟨(a, A), hA, by simp [hne]⟩
    have hb1 : (pip.store pip.ab (procrastinate_band E b c.2)).deref
        (pip.store pip.ab (procrastinate_band E b c.2)).ab =
        some (procrastinate_band E b c.2) := by
      rw [store_ab, deref_store, if_pos rfl, hb]; rfl
    obtain ⟨pip', l', b', hseq, hinv', hlen, hA', hab', hb', hid'⟩ :=
      ih _ _ a A _ hinv1 hA1 (by rw [store_ab]; exact hne) hb1
        (fun c' hc' => hs c' (List.mem_cons_of_mem _ hc'))
    refine ⟨pip', l', b', ?_, hinv', ?_, hA', ?_, hb', ?_⟩
    · simp only [procrastinate_seq, hstep]
      exact hseq
    · rw [hlen]; simp [list_store]
    · rw [hab', store_ab]
    · rw [hid']; rfl

/-! ## More loop iterations never change a returned result -/

theorem addband_tail_mono (pip : prdic_inst) :
    ∀ (fuel fuel' a t : Nat), addband_tail pip fuel a = .ret t → fuel ≤ fuel' →
      addband_tail pip fuel' a = .ret t := by
  intro fuel
  induction fuel with
  | zero => intro fuel' a t h; simp [addband_tail] at h
  | succ n ih =>
    intro fuel' a t h hle
    cases fuel' with
    | zero => omega
    | succ m =>
      simp only [addband_tail] at h ⊢
      cases hd : pip.deref a with
      | none => simp [hd] at h
      | some b =>
        simp only [hd] at h ⊢
        cases hn : b.next with
        | none => simpa [hn] using h
        | some a1 =>
          simp only [hn] at h ⊢
          exact ih m a1 t h (by omega)

theorem useband_find_mono (pip : prdic_inst) (bnum : Int) :
    ∀ (fuel fuel' : Nat) (p r : Option Nat), useband_find pip bnum fuel p = .ret r →
      fuel ≤ fuel' → useband_find pip bnum fuel' p = .ret r := by
  intro fuel
  induction fuel with
  | zero => intro fuel' p r h; simp [useband_find] at h
  | succ n ih =>
    intro fuel' p r h hle
    cases fuel' with
    | zero => omega
    | succ m =>
      cases p with
      | none => simpa [useband_find] using h
      | some a =>
        simp only [useband_find] at h ⊢
        cases hd : pip.deref a with
        | none => simp [hd] at h
        | some b =>
          simp only [hd] at h ⊢
          by_cases hb : b.id = bnum
          · simpa [hb] using h
          · simp only [hb, if_false] at h ⊢
            exact ih m b.next r h (by omega)

theorem prdic_addband_mono {fuel fuel' : Nat} {pip : prdic_inst} {malloc_ok : Bool}
    {freq_hz : Rat} {r : prdic_inst × Int}
    (h : prdic_addband fuel pip malloc_ok freq_hz = .ret r) (hle : fuel ≤ fuel') :
    prdic_addband fuel' pip malloc_ok freq_hz = .ret r := by
  cases malloc_ok with
  | false => simpa [prdic_addband] using h
  | true =>
    simp only [prdic_addband, Bool.not_true, Bool.false_eq_true, if_false] at h ⊢
    split at h
    · rename_i tbp heq
      rw [addband_tail_mono _ fuel fuel' 0 tbp heq hle]
      exact h
    all_goals cases h

theorem prdic_useband_mono {E : prdic_deps} {fuel fuel' : Nat} {pip pip' : prdic_inst}
    {bnum : Int} (h : prdic_useband E fuel pip bnum = .ret pip') (hle : fuel ≤ fuel') :
    prdic_useband E fuel' pip bnum = .ret pip' := by
  simp only [prdic_useband] at h ⊢
  cases hd : pip.deref pip.ab with
  | none => simp [hd] at h
  | some ab =>
    simp only [hd] at h ⊢
    by_cases hb : bnum = ab.id
    · simpa [hb] using h
    · simp only [hb, if_false] at h ⊢
      cases hf : useband_find pip bnum fuel (some 0) with
      | ret r =>
        rw [hf] at h
        rw [useband_find_mono pip bnum fuel fuel' (some 0) r hf hle]
        exact h
      | assert_fail => rw [hf] at h; cases h
      | aborted => rw [hf] at h; cases h
      | fault => rw [hf] at h; cases h
      | timeout => rw [hf] at h; cases h

/-! ## The invariant is kept by every operation -/

theorem inst_inv_init {E : prdic_deps} {malloc_ok : Bool} {clock : Option timespec}
    {freq_hz off : Rat} {pip : prdic_inst}
    (h : prdic_init E malloc_ok clock freq_hz off = .ret (some pip)) :
    inst_inv pip [(0, pip.bands)] ∧ pip.bands.id = 0 := by
  cases malloc_ok with
  | false => simp [prdic_init] at h
  | true =>
    cases clock with
    | none => simp [prdic_init, getttime] at h
    | some t =>
      obtain ⟨pip0, hinit, hc, hid, _, hab, _⟩ := prdic_init_chain E t freq_hz off
      rw [hinit] at h
      simp only [Outcome.ret.injEq, Option.some.injEq] at h
      subst h
      refine ⟨⟨hc, by simp [ids_of], ?_⟩, hid⟩
      simp [addrs_of, hab]

theorem inst_inv_addband {fuel : Nat} {pip pip' : prdic_inst} {l : List (Nat × prdic_band)}
    {malloc_ok : Bool} {freq_hz : Rat} {r : Int} (hinv : inst_inv pip l)
    (h : prdic_addband fuel pip malloc_ok freq_hz = .ret (pip', r)) :
    ∃ l', inst_inv pip' l' := by
  cases malloc_ok with
  | false =>
    simp only [prdic_addband, Bool.not_false, if_true, Outcome.ret.injEq, Prod.mk.injEq] at h
    rw [← h.1]
    exact ⟨l, hinv⟩
  | true =>
    have h' := prdic_addband_mono h (Nat.le_max_left fuel l.length)
    obtain ⟨t, bt, pip1, hlast, hadd, hc1, hab1⟩ :=
      prdic_addband_chain (max fuel l.length) freq_hz hinv.chain
        (Nat.le_max_right fuel l.length)
    rw [hadd] at h'
    simp only [Outcome.ret.injEq, Prod.mk.injEq] at h'
    obtain ⟨rfl, _⟩ := h'
    obtain ⟨ys, rfl⟩ := List.getLast?_eq_some_iff.1 hlast
    rw [List.dropLast_concat] at hc1
    refine ⟨_, hc1, ?_, ?_⟩
    · have hp := hinv.ids_inc
      simp only [ids_of, List.map_append, List.map_cons, List.map_nil] at hp ⊢
      rw [List.pairwise_append] at hp ⊢
      obtain ⟨hp1, _, hp3⟩ := hp
      refine ⟨hp1, ?_, ?_⟩
      · simp [addband_new, band_init]
      · intro a ha b hb
        have hab := hp3 a ha bt.id (by simp)
        simp only [List.mem_cons, List.mem_singleton, List.not_mem_nil, or_false] at hb
        rcases hb with rfl | rfl
        · exact hab
        · simp only [addband_new, band_init]
          omega
    · have hm := hinv.ab_mem
      rw [hab1]
      simp only [addrs_of, List.map_append, List.map_cons, List.map_nil, List.mem_append,
        List.mem_cons, List.mem_singleton, List.not_mem_nil, or_false] at hm ⊢
      tauto

theorem inst_inv_useband_ret {E : prdic_deps} {fuel : Nat} {pip pip' : prdic_inst}
    {l : List (Nat × prdic_band)} {bnum : Int} (hinv : inst_inv pip l)
    (h : prdic_useband E fuel pip bnum = .ret pip') : ∃ l', inst_inv pip' l' := by
  obtain ⟨x, hx, hxa⟩ := List.mem_map.1 hinv.ab_mem
  have hab : pip.deref pip.ab = some x.2 := by
    rw [← hxa]; exact hinv.chain.deref_of_mem x hx
  by_cases hb : bnum = x.2.id
  · simp only [prdic_useband, hab, if_pos hb, Outcome.ret.injEq] at h
    rw [← h]
    exact ⟨l, hinv⟩
  · have h' := prdic_useband_mono h (Nat.le_max_left fuel (l.length + 1))
    rw [prdic_useband_chain E hinv.chain
      (Nat.lt_of_lt_of_le (Nat.lt_succ_self _) (Nat.le_max_right fuel (l.length + 1)))
      hab hb] at h'
    cases hfind : l.find? (fun x => decide (x.2.id = bnum)) with
    | none => rw [hfind] at h'; cases h'
    | some y =>
      rw [hfind] at h'
      simp only [Outcome.ret.injEq] at h'
      rw [← h']
      exact ⟨_, inst_inv_useband E _ hinv (List.mem_of_find?_eq_some hfind)⟩

theorem inst_inv_store_active {pip pip' : prdic_inst} {l : List (Nat × prdic_band)}
    (hinv : inst_inv pip l) (f : prdic_band → prdic_band)
    (hn : ∀ b, (f b).next = b.next) (hid : ∀ b, (f b).id = b.id)
    (h : ∀ ab, pip.deref pip.ab = some ab → pip' = pip.store pip.ab (f ab)) :
    ∃ l', inst_inv pip' l' := by
  obtain ⟨x, hx, hxa⟩ := List.mem_map.1 hinv.ab_mem
  have hab : pip.deref pip.ab = some x.2 := by
    rw [← hxa]; exact hinv.chain.deref_of_mem x hx
  rw [h _ hab]
  exact ⟨_, inst_inv_store _ hinv hab (hn _) (hid _)⟩

theorem inst_inv_set_epoch {pip pip' : prdic_inst} {l : List (Nat × prdic_band)}
    {tp : timespec} (hinv : inst_inv pip l) (h : prdic_set_epoch pip tp = .ret pip') :
    ∃ l', inst_inv pip' l' := by
  refine inst_inv_store_active hinv (fun b => set_epoch_band b tp) (fun _ => rfl)
    (fun _ => rfl) ?_
  intro ab hab
  simp only [prdic_set_epoch, band_set_epoch, hab, Outcome.ret.injEq] at h
  rw [← h]
  rfl

theorem inst_inv_set_fparams {pip pip' : prdic_inst} {l : List (Nat × prdic_band)}
    {fcoef : Rat} (hinv : inst_inv pip l) (h : prdic_set_fparams pip fcoef = .ret pip') :
    ∃ l', inst_inv pip' l' := by
  refine inst_inv_store_active hinv
    (fun b => { b with loop_error := { b.loop_error with coefficient := fcoef } })
    (fun _ => rfl) (fun _ => rfl) ?_
  intro ab hab
  by_cases h0 : ab.loop_error.lastval = 0
  · rw [prdic_set_fparams_ret pip fcoef hab h0] at h
    simp only [Outcome.ret.injEq] at h
    exact h.symm
  · rw [prdic_set_fparams_fail pip fcoef hab h0] at h
    cases h

theorem inst_inv_procrastinate {E : prdic_deps} {pip pip' : prdic_inst}
    {l : List (Nat × prdic_band)} {sleeps : List (Int × timespec)}
    {clock : Option timespec} {r : Int} (hinv : inst_inv pip l)
    (h : prdic_procrastinate E pip sleeps clock = .ret (pip', r)) :
    ∃ l', inst_inv pip' l' := by
  cases clock with
  | none =>
    simp only [prdic_procrastinate, getttime] at h
    split at h
    · cases h
    · split at h
      · cases h
      · simp at h
  | some now =>
    refine inst_inv_store_active hinv (fun b => procrastinate_band E b now) (fun _ => rfl)
      (fun _ => rfl) ?_
    intro ab hab
    simp only [prdic_procrastinate, hab, getttime] at h
    split at h
    · cases h
    · simp only [Outcome.ret.injEq, Prod.mk.injEq] at h
      rw [← h.1]
      rfl

/-- Every reachable state satisfies the invariant. -/
theorem reachable_inv {E : prdic_deps} {pip : prdic_inst} (h : Reachable E pip) :
    ∃ l, inst_inv pip l := by
  induction h with
  | init h => exact ⟨_, (inst_inv_init h).1⟩
  | addband _ h ih => obtain ⟨l, hl⟩ := ih; exact inst_inv_addband hl h
  | useband _ h ih => obtain ⟨l, hl⟩ := ih; exact inst_inv_useband_ret hl h
  | set_epoch _ h ih => obtain ⟨l, hl⟩ := ih; exact inst_inv_set_epoch hl h
  | set_fparams _ h ih => obtain ⟨l, hl⟩ := ih; exact inst_inv_set_fparams hl h
  | procrastinate _ h ih => obtain ⟨l, hl⟩ := ih; exact inst_inv_procrastinate hl h

/-! ## The example states are states of the program -/

theorem dtime2timespec_zero : dtime2timespec 0 = ⟨0, 0⟩ := by
  have h : c_trunc 0 = 0 := by norm_num [c_trunc]
  simp only [dtime2timespec, h]
  norm_num [c_round, NSEC_IN_SEC]

theorem dtime2timespec_ten : dtime2timespec 10 = ⟨10, 0⟩ := by
  have h : c_trunc 10 = 10 := by norm_num [c_trunc]
  simp only [dtime2timespec, h]
  norm_num [c_round, NSEC_IN_SEC]

theorem dtime2timespec_tenth : dtime2timespec (1 / 10) = ⟨0, 100000000⟩ := by
  have h : c_trunc (1 / 10) = 0 := by norm_num [c_trunc, Int.floor_eq_iff]
  simp only [dtime2timespec, h]
  norm_num [c_round, NSEC_IN_SEC, Int.floor_eq_iff]

theorem dtime2timespec_fifty : dtime2timespec 50 = ⟨50, 0⟩ := by
  have h : c_trunc 50 = 50 := by norm_num [c_trunc]
  simp only [dtime2timespec, h]
  norm_num [c_round, NSEC_IN_SEC]

theorem dtime2timespec_fiftieth : dtime2timespec (1 / 50) = ⟨0, 20000000⟩ := by
  have h : c_trunc (1 / 50) = 0 := by norm_num [c_trunc, Int.floor_eq_iff]
  simp only [dtime2timespec, h]
  norm_num [c_round, NSEC_IN_SEC, Int.floor_eq_iff]

/-- The state `ex_fresh` is what `prdic_init(10.0, 0.0)` returns at clock 100 s. -/
theorem ex_fresh_init :
    prdic_init deps_spec true (some ⟨100, 0⟩) 10 0 = .ret (some ex_fresh) := by
  simp only [prdic_init, getttime, band_init, tplusdtime, dtime2timespec_tenth,
    dtime2timespec_ten, dtime2timespec_zero, recfilter_init, PFD_init, band_zero,
    timespec_zero]
  simp [ex_fresh]
  norm_num [deps_spec, ts_of_ns, ts_to_ns, NSEC_IN_SEC]

/-- The state `ex_run` is `ex_fresh` after a `prdic_procrastinate` whose sleep is
not interrupted and whose clock reading is 100.55 s. -/
theorem ex_run_procrastinate :
    prdic_procrastinate deps_spec ex_fresh [(0, ⟨0, 0⟩)] (some ⟨100, 550000000⟩) =
      .ret (ex_run, 0) := by
  simp [prdic_procrastinate, ex_fresh, ex_run, ex_band0, prdic_inst.deref, sleep_loop,
    getttime, prdic_inst.store, deps_spec, ts_of_ns, ts_to_ns, NSEC_IN_SEC, timespec2dtime,
    recfilter_apply]
  norm_num [abs_of_pos]

/-- The band list of `ex_two`. -/
theorem ex_two_chain : Chain ex_two (some 0) ex_two_list :=
  Chain.cons rfl (Chain.cons rfl Chain.nil)

/-- The state `ex_two` is `ex_run` after `prdic_addband(50.0)`, which returns 1. -/
theorem ex_two_addband : prdic_addband 1 ex_run true 50 = .ret (ex_two, 1) := by
  simp [prdic_addband, addband_tail, prdic_inst.deref, prdic_inst.store, ex_run, ex_two,
    ex_band0, ex_band1, band_init, band_zero, recfilter_init, PFD_init, timespec_zero,
    dtime2timespec_fifty]
  refine ⟨?_, by norm_num⟩
  rw [← one_div]
  exact dtime2timespec_fiftieth

/-- The example run around a band switch, step by step. -/
theorem ex_sw_useband : prdic_useband deps_spec 3 ex_two 1 = .ret ex_sw := by
  rfl

theorem ex_sw_run_procrastinate :
    prdic_procrastinate deps_spec ex_sw [(0, ⟨0, 0⟩)] (some ⟨100, 570000000⟩) =
      .ret (ex_sw_run, 0) := by
  simp [prdic_procrastinate, ex_sw, ex_sw_run, ex_band0, ex_band1, ex_band1_sw, ex_band1_run,
    prdic_inst.deref, sleep_loop, getttime, prdic_inst.store, deps_spec, ts_of_ns, ts_to_ns,
    NSEC_IN_SEC, timespec2dtime, recfilter_apply]
  norm_num [abs_of_pos]

theorem ex_back_useband : prdic_useband deps_spec 3 ex_sw_run 0 = .ret ex_back := by
  rfl

theorem ex_back_run_procrastinate :
    prdic_procrastinate deps_spec ex_back [(0, ⟨0, 0⟩)] (some ⟨100, 660000000⟩) =
      .ret (ex_back_run, 0) := by
  simp [prdic_procrastinate, ex_back, ex_back_run, ex_band0, ex_band0_back,
    ex_band0_back_run, ex_band1, ex_band1_sw, ex_band1_run,
    prdic_inst.deref, sleep_loop, getttime, prdic_inst.store, deps_spec, ts_of_ns, ts_to_ns,
    NSEC_IN_SEC, timespec2dtime, recfilter_apply]
  norm_num [abs_of_pos]

theorem deref_useband_result (E : prdic_deps) {pip : prdic_inst} (ab : prdic_band)
    {bt : prdic_band} {a : Nat} (hd : pip.deref a = some bt) :
    (useband_result E pip ab a bt).deref (useband_result E pip ab a bt).ab =
      some (set_epoch_band bt (useband_epoch E ab)) := by
  show ({ pip.store a _ with ab := a } : prdic_inst).deref a = _
  rw [deref_with_ab, deref_store, if_pos rfl, hd]
  rfl

theorem dtime2timespec_one : dtime2timespec 1 = ⟨1, 0⟩ := by
  have h : c_trunc 1 = 1 := by norm_num [c_trunc]
  simp only [dtime2timespec, h]
  norm_num [c_round, NSEC_IN_SEC]

/-- The state `ex_late` is what `prdic_init(1.0, 1.0)` returns at clock 100 s. -/
theorem ex_late_init :
    prdic_init deps_spec true (some ⟨100, 0⟩) 1 1 = .ret (some ex_late) := by
  simp only [prdic_init, getttime, band_init, tplusdtime, dtime2timespec_one,
    recfilter_init, PFD_init, band_zero, timespec_zero, one_div_one]
  simp [ex_late, dtime2timespec_one]
  norm_num [deps_spec, ts_of_ns, ts_to_ns, NSEC_IN_SEC]

theorem ex_late_set_fparams : prdic_set_fparams ex_late (1 / 2) = .ret ex_late_set := by
  simp [prdic_set_fparams, recfilter_adjust, ex_late, ex_late_set, prdic_inst.deref,
    prdic_inst.store]

theorem ex_late_run_procrastinate :
    prdic_procrastinate deps_spec ex_late_set [(0, ⟨0, 0⟩)] (some ⟨101, 0⟩) =
      .ret (ex_late_run, 0) := by
  simp [prdic_procrastinate, ex_late, ex_late_set, ex_late_run, prdic_inst.deref, sleep_loop,
    getttime, prdic_inst.store, deps_spec, ts_of_ns, ts_to_ns, NSEC_IN_SEC, timespec2dtime]

theorem ex_late_set2_fparams : prdic_set_fparams ex_late_run (1 / 4) = .ret ex_late_set2 := by
  simp [prdic_set_fparams, recfilter_adjust, ex_late, ex_late_run, ex_late_set2,
    prdic_inst.deref, prdic_inst.store]

/-! ## Frame lemmas -/

theorem deref_store_other (pip : prdic_inst) {a x : Nat} (b : prdic_band) (h : x ≠ a) :
    (pip.store a b).deref x = pip.deref x := by
  rw [deref_store, if_neg h]

theorem deref_store_same {pip : prdic_inst} {a : Nat} {b0 : prdic_band} (b : prdic_band)
    (h : pip.deref a = some b0) : (pip.store a b).deref a = some b := by
  rw [deref_store, if_pos rfl, h]; rfl

theorem prdic_set_epoch_ret (pip : prdic_inst) {ab : prdic_band} (tp : timespec)
    (hab : pip.deref pip.ab = some ab) :
    prdic_set_epoch pip tp = .ret (pip.store pip.ab (set_epoch_band ab tp)) := by
  simp only [prdic_set_epoch, band_set_epoch, hab]
  rfl

theorem sleep_loop_single (t : timespec) : sleep_loop [(0, ⟨0, 0⟩)] t ≠ none := by
  simp [sleep_loop]

/-! ## The built-in band keeps id 0 -/

theorem chain_head {pip : prdic_inst} {l : List (Nat × prdic_band)}
    (h : Chain pip (some 0) l) : ∃ l0, l = (0, pip.bands) :: l0 := by
  cases h with
  | cons hd hc =>
    rename_i b l0
    simp only [prdic_inst.deref, Option.some.injEq] at hd
    subst hd
    exact ⟨l0, rfl⟩

theorem store_bands_id {pip : prdic_inst} {a : Nat} {b : prdic_band} (b' : prdic_band)
    (hd : pip.deref a = some b) (hid : b'.id = b.id) :
    (pip.store a b').bands.id = pip.bands.id := by
  cases a with
  | zero =>
    simp only [prdic_inst.deref, Option.some.injEq] at hd
    subst hd
    exact hid
  | succ k => rfl

theorem inst_inv_active {pip : prdic_inst} {l : List (Nat × prdic_band)}
    (hinv : inst_inv pip l) : ∃ ab, pip.deref pip.ab = some ab := by
  obtain ⟨x, hx, hxa⟩ := List.mem_map.1 hinv.ab_mem
  exact ⟨x.2, by rw [← hxa]; exact hinv.chain.deref_of_mem x hx⟩

theorem bands_id_addband {fuel : Nat} {pip pip' : prdic_inst} {l : List (Nat × prdic_band)}
    {malloc_ok : Bool} {freq_hz : Rat} {r : Int} (hinv : inst_inv pip l)
    (h : prdic_addband fuel pip malloc_ok freq_hz = .ret (pip', r)) :
    pip'.bands.id = pip.bands.id := by
  cases malloc_ok with
  | false =>
    simp only [prdic_addband, Bool.not_false, if_true, Outcome.ret.injEq, Prod.mk.injEq] at h
    rw [← h.1]
  | true =>
    have h' := prdic_addband_mono h (Nat.le_max_left fuel l.length)
    obtain ⟨t, bt, pip1, hlast, hadd, hc1, _⟩ :=
      prdic_addband_chain (max fuel l.length) freq_hz hinv.chain
        (Nat.le_max_right fuel l.length)
    rw [hadd] at h'
    simp only [Outcome.ret.injEq, Prod.mk.injEq] at h'
    obtain ⟨rfl, _⟩ := h'
    obtain ⟨ys, rfl⟩ := List.getLast?_eq_some_iff.1 hlast
    rw [List.dropLast_concat] at hc1
    obtain ⟨l0, hl0⟩ := chain_head hinv.chain
    obtain ⟨l1, hl1⟩ := chain_head hc1
    cases ys with
    | nil =>
      simp only [List.nil_append, List.cons.injEq, Prod.mk.injEq] at hl0 hl1
      rw [← hl1.1.2, ← hl0.1.2]
    | cons y ys0 =>
      simp only [List.cons_append, List.cons.injEq] at hl0 hl1
      have h0 := hl0.1
      have h1 := hl1.1
      rw [h0] at h1
      simp only [Prod.mk.injEq, true_and] at h1
      rw [h1]

theorem bands_id_useband {E : prdic_deps} {fuel : Nat} {pip pip' : prdic_inst}
    {l : List (Nat × prdic_band)} {bnum : Int} (hinv : inst_inv pip l)
    (h : prdic_useband E fuel pip bnum = .ret pip') : pip'.bands.id = pip.bands.id := by
  obtain ⟨ab, hab⟩ := inst_inv_active hinv
  by_cases hb : bnum = ab.id
  · simp only [prdic_useband, hab, if_pos hb, Outcome.ret.injEq] at h
    rw [← h]
  · have h' := prdic_useband_mono h (Nat.le_max_left fuel (l.length + 1))
    rw [prdic_useband_chain E hinv.chain
      (Nat.lt_of_lt_of_le (Nat.lt_succ_self _) (Nat.le_max_right fuel (l.length + 1)))
      hab hb] at h'
    cases hfind : l.find? (fun x => decide (x.2.id = bnum)) with
    | none => rw [hfind] at h'; cases h'
    | some y =>
      rw [hfind] at h'
      simp only [Outcome.ret.injEq] at h'
      rw [← h']
      have hd := hinv.chain.deref_of_mem y (List.mem_of_find?_eq_some hfind)
      exact store_bands_id (set_epoch_band y.2 (useband_epoch E ab)) hd rfl

theorem bands_id_set_epoch {pip pip' : prdic_inst} {l : List (Nat × prdic_band)}
    {tp : timespec} (hinv : inst_inv pip l) (h : prdic_set_epoch pip tp = .ret pip') :
    pip'.bands.id = pip.bands.id := by
  obtain ⟨ab, hab⟩ := inst_inv_active hinv
  rw [prdic_set_epoch_ret pip tp hab] at h
  simp only [Outcome.ret.injEq] at h
  rw [← h]
  exact store_bands_id _ hab rfl

theorem bands_id_set_fparams {pip pip' : prdic_inst} {l : List (Nat × prdic_band)}
    {fcoef : Rat} (hinv : inst_inv pip l) (h : prdic_set_fparams pip fcoef = .ret pip') :
    pip'.bands.id = pip.bands.id := by
  obtain ⟨ab, hab⟩ := inst_inv_active hinv
  by_cases h0 : ab.loop_error.lastval = 0
  · rw [prdic_set_fparams_ret pip fcoef hab h0] at h
    simp only [Outcome.ret.injEq] at h
    rw [← h]
    exact store_bands_id _ hab rfl
  · rw [prdic_set_fparams_fail pip fcoef hab h0] at h
    cases h

theorem bands_id_procrastinate {E : prdic_deps} {pip pip' : prdic_inst}
    {l : List (Nat × prdic_band)} {sleeps : List (Int × timespec)}
    {clock : Option timespec} {r : Int} (hinv : inst_inv pip l)
    (h : prdic_procrastinate E pip sleeps clock = .ret (pip', r)) :
    pip'.bands.id = pip.bands.id := by
  obtain ⟨ab, hab⟩ := inst_inv_active hinv
  cases clock with
  | none =>
    simp only [prdic_procrastinate, hab, getttime] at h
    split at h
    · cases h
    · simp at h
  | some now =>
    simp only [prdic_procrastinate, hab, getttime] at h
    split at h
    · cases h
    · simp only [Outcome.ret.injEq, Prod.mk.injEq] at h
      rw [← h.1]
      exact store_bands_id _ hab rfl

/-- In every reachable state the built-in band has id 0. -/
theorem reachable_bands_id {E : prdic_deps} {pip : prdic_inst} (h : Reachable E pip) :
    pip.bands.id = 0 := by
  induction h with
  | init h => exact (inst_inv_init h).2
  | addband hr h ih =>
    obtain ⟨l, hl⟩ := reachable_inv hr
    rw [bands_id_addband hl h]; exact ih
  | useband hr h ih =>
    obtain ⟨l, hl⟩ := reachable_inv hr
    rw [bands_id_useband hl h]; exact ih
  | set_epoch hr h ih =>
    obtain ⟨l, hl⟩ := reachable_inv hr
    rw [bands_id_set_epoch hl h]; exact ih
  | set_fparams hr h ih =>
    obtain ⟨l, hl⟩ := reachable_inv hr
    rw [bands_id_set_fparams hl h]; exact ih
  | procrastinate hr h ih =>
    obtain ⟨l, hl⟩ := reachable_inv hr
    rw [bands_id_procrastinate hl h]; exact ih

/-- With increasing ids that start at 0, the id of the tail is not negative. -/
theorem last_id_nonneg {pip : prdic_inst} {l : List (Nat × prdic_band)} {t : Nat}
    {bt : prdic_band} (hinv : inst_inv pip l) (h0 : pip.bands.id = 0)
    (hlast : l.getLast? = some (t, bt)) : 0 ≤ bt.id := by
  obtain ⟨ys, rfl⟩ := List.getLast?_eq_some_iff.1 hlast
  obtain ⟨l0, hl0⟩ := chain_head hinv.chain
  cases ys with
  | nil =>
    simp only [List.nil_append, List.cons.injEq, Prod.mk.injEq] at hl0
    rw [hl0.1.2, h0]
  | cons y ys0 =>
    simp only [List.cons_append, List.cons.injEq] at hl0
    have hp := hinv.ids_inc
    simp only [ids_of, List.map_append, List.map_cons, List.map_nil,
      List.cons_append] at hp
    rw [List.pairwise_cons] at hp
    have := hp.1 bt.id (by simp)
    rw [hl0.1] at this
    simp only [h0] at this
    exact le_of_lt this

/-! ## Rounding of `dtime2timespec` -/

theorem FD_clamp_bounds (f : recfilter) (period : Rat) (hper : 0 < period) :
    0 ≤ (if f.lastval < 0 then { f with lastval := 0 }
          else if f.lastval > period then { f with lastval := period } else f).lastval ∧
    (if f.lastval < 0 then { f with lastval := 0 }
          else if f.lastval > period then { f with lastval := period } else f).lastval
      ≤ period := by
  split
  · exact ⟨le_refl _, le_of_lt hper⟩
  · split
    · exact ⟨le_of_lt hper, le_refl _⟩
    · rename_i h1 h2
      exact ⟨le_of_not_lt h1, le_of_not_lt h2⟩

theorem FD_slept (pip : prdic_inst_FD) {sleeps : List (Int × timespec)}
    (hsleep : ∀ t, sleep_loop sleeps t ≠ none) :
    ∃ r, (if pip.ab.add_delay_fltrd.lastval ≤ 0 then some timespec_zero
      else sleep_loop sleeps (dtime2timespec pip.ab.add_delay_fltrd.lastval)) = some r := by
  split
  · exact ⟨_, rfl⟩
  · cases hs : sleep_loop sleeps (dtime2timespec pip.ab.add_delay_fltrd.lastval) with
    | none => exact absurd hs (hsleep _)
    | some r => exact ⟨r, rfl⟩

/-! ## Exact fixed-point arithmetic of the modelled collaborators -/

theorem ts_to_ns_of_ns (x : Int) : ts_to_ns (ts_of_ns x) = x := by
  simp only [ts_to_ns, ts_of_ns, NSEC_IN_SEC]
  omega

/-- Under the modelled arithmetic, the tick count measured at `now` has
`(now - epoch) * tfreq_hz / 10^18` whole seconds (all in nanoseconds). -/
theorem measured_sec (A : prdic_band) (now : timespec) :
    SEC (measured_tclk deps_spec A now) =
      (ts_to_ns now - ts_to_ns A.epoch) * ts_to_ns A.tfreq_hz /
        (1000000000 * 1000000000) := by
  show (ts_of_ns (ts_to_ns (ts_of_ns (ts_to_ns now - ts_to_ns A.epoch)) *
    ts_to_ns A.tfreq_hz / NSEC_IN_SEC)).tv_sec = _
  rw [ts_to_ns_of_ns]
  simp only [ts_of_ns, NSEC_IN_SEC]
  generalize (ts_to_ns now - ts_to_ns A.epoch) * ts_to_ns A.tfreq_hz = x
  omega

/-- Under the modelled arithmetic, the epoch computed by `prdic_useband` is the
old epoch plus `SEC(last_tclk)` periods, exactly. -/
theorem useband_epoch_ns (A : prdic_band) :
    ts_to_ns (useband_epoch deps_spec A) =
      ts_to_ns A.epoch + SEC A.last_tclk * ts_to_ns A.period := by
  show ts_to_ns (ts_of_ns (ts_to_ns (ts_of_ns
    (ts_to_ns ⟨SEC A.last_tclk, 0⟩ * ts_to_ns A.period / NSEC_IN_SEC)) + ts_to_ns A.epoch)) = _
  rw [ts_to_ns_of_ns, ts_to_ns_of_ns]
  have h : ts_to_ns ⟨SEC A.last_tclk, 0⟩ * ts_to_ns A.period / NSEC_IN_SEC =
      SEC A.last_tclk * ts_to_ns A.period := by
    simp only [ts_to_ns, NSEC_IN_SEC, add_zero]
    rw [mul_right_comm]
    exact Int.mul_ediv_cancel _ (by norm_num)
  rw [h]
  ring

/-- When period times tick scale is exactly one, the product of their
nanosecond counts is 10^18. -/
theorem unit_product_ns {A : prdic_band}
    (h : timespec2dtime A.period * timespec2dtime A.tfreq_hz = 1) :
    ts_to_ns A.period * ts_to_ns A.tfreq_hz = 1000000000 * 1000000000 := by
  simp only [timespec2dtime, NSEC_IN_SEC] at h
  have h' : ((ts_to_ns A.period : Int) : Rat) * ((ts_to_ns A.tfreq_hz : Int) : Rat) =
      1000000000 * 1000000000 := by
    field_simp at h
    linarith
  exact_mod_cast h'

/-! ## Binary64 rounding -/

theorem round_even_int (n : Int) : round_even (n : Rat) = n := by
  simp [round_even]

theorem round_even_bounds {q : Rat} {n m : Int} (hn : (n : Rat) ≤ q) (hm : q ≤ (m : Rat)) :
    n ≤ round_even q ∧ round_even q ≤ m := by
  have hf1 : n ≤ ⌊q⌋ := Int.le_floor.2 hn
  have hf2 : ⌊q⌋ ≤ m := by
    have := Int.floor_le q
    exact_mod_cast le_trans this hm
  rcases eq_or_lt_of_le hm with heq | hlt
  · subst heq
    rw [round_even_int]
    exact ⟨by exact_mod_cast hn, le_refl _⟩
  · have hf3 : ⌊q⌋ + 1 ≤ m := by
      have : ⌊q⌋ < m := Int.floor_lt.2 hlt
      omega
    unfold round_even
    split
    · exact ⟨hf1, hf2⟩
    · split
      · exact ⟨by omega, hf3⟩
      · split
        · exact ⟨hf1, hf2⟩
        · exact ⟨by omega, hf3⟩

theorem round_b64_zero : round_b64 0 = 0 := by simp [round_b64]

theorem round_b64_two_zpow (k : Int) : round_b64 ((2 : Rat) ^ k) = (2 : Rat) ^ k := by
  have hpos : (0 : Rat) < (2 : Rat) ^ k := by positivity
  have hlog : Int.log 2 |(2 : Rat) ^ k| = k := by
    rw [abs_of_pos hpos]
    exact_mod_cast Int.log_zpow (R := Rat) (b := 2) (by norm_num) k
  unfold round_b64
  rw [if_neg (ne_of_gt hpos), hlog]
  have hdiv : (2 : Rat) ^ k / (2 : Rat) ^ (k - 52) = ((2 ^ 52 : Int) : Rat) := by
    rw [← zpow_sub₀ (by norm_num : (2 : Rat) ≠ 0)]
    have : k - (k - 52) = 52 := by ring
    rw [this]
    norm_num
  rw [hdiv, round_even_int]
  rw [zpow_sub₀ (by norm_num : (2 : Rat) ≠ 0)]
  push_cast
  field_simp
  ring

/-- Evaluation of `round_b64` on a positive value of known binade. -/
theorem round_b64_eval {x : Rat} {e n : Int} (hx : 0 < x)
    (hlo : (2 : Rat) ^ e ≤ x) (hhi : x < (2 : Rat) ^ (e + 1))
    (hn : round_even (x / (2 : Rat) ^ (e - 52)) = n) :
    round_b64 x = (n : Rat) * (2 : Rat) ^ (e - 52) := by
  have hlog : Int.log 2 |x| = e := by
    rw [abs_of_pos hx]
    apply le_antisymm
    · have := (Int.lt_zpow_iff_log_lt (R := Rat) (b := 2) (by norm_num) hx).1
        (by exact_mod_cast hhi)
      omega
    · exact (Int.zpow_le_iff_le_log (R := Rat) (b := 2) (by norm_num) hx).1
        (by exact_mod_cast hlo)
  unfold round_b64
  rw [if_neg (ne_of_gt hx), hlog, hn]

theorem round_b64_below_one : round_b64 (1 - 1 / 2 ^ 57) = 1 := by
  have h := round_b64_eval (x := 1 - 1 / 2 ^ 57) (e := -1) (n := 2 ^ 53) (by norm_num)
    (by norm_num) (by norm_num) (by
      have hq : (1 - 1 / 2 ^ 57 : Rat) / (2 : Rat) ^ ((-1 : Int) - 52) = 9007199254740992 - 1 / 16 := by
        norm_num [zpow_neg]
      rw [hq]
      have hfl : ⌊(9007199254740992 - 1 / 16 : Rat)⌋ = 9007199254740991 := by
        rw [Int.floor_eq_iff]; norm_num
      unfold round_even
      rw [hfl]
      norm_num)
  rw [h]
  norm_num [zpow_neg]

theorem round_b64_unit {x : Rat} (h0 : 0 ≤ x) (h1 : x ≤ 1) :
    0 ≤ round_b64 x ∧ round_b64 x ≤ 1 := by
  rcases eq_or_lt_of_le h0 with hz | hpos
  · rw [← hz, round_b64_zero]; exact ⟨le_refl _, zero_le_one⟩
  rcases eq_or_lt_of_le h1 with hone | hlt
  · have := round_b64_two_zpow 0
    simp only [zpow_zero] at this
    rw [hone, this]
    exact ⟨zero_le_one, le_refl _⟩
  -- 0 < x < 1
  have hb : (1 : ℕ) < 2 := by norm_num
  have hlo : (2 : Rat) ^ Int.log 2 x ≤ x := by
    exact_mod_cast Int.zpow_log_le_self (R := Rat) hb hpos
  have hhi : x < (2 : Rat) ^ (Int.log 2 x + 1) := by
    exact_mod_cast Int.lt_zpow_succ_log_self (R := Rat) hb x
  have hneg : Int.log 2 x + 1 ≤ 0 := by
    have : Int.log 2 x < 0 :=
      (Int.lt_zpow_iff_log_lt (R := Rat) (b := 2) hb hpos).1 (by simpa using hlt)
    omega
  have hulp : (0 : Rat) < (2 : Rat) ^ (Int.log 2 x - 52) := by positivity
  have hq1 : ((2 ^ 52 : Int) : Rat) ≤ x / (2 : Rat) ^ (Int.log 2 x - 52) := by
    rw [le_div_iff₀ hulp]
    have : ((2 ^ 52 : Int) : Rat) * (2 : Rat) ^ (Int.log 2 x - 52) = (2 : Rat) ^ Int.log 2 x := by
      rw [zpow_sub₀ (by norm_num : (2 : Rat) ≠ 0)]
      push_cast
      field_simp
      ring
    rw [this]; exact hlo
  have hq2 : x / (2 : Rat) ^ (Int.log 2 x - 52) ≤ ((2 ^ 53 : Int) : Rat) := by
    rw [div_le_iff₀ hulp]
    have : ((2 ^ 53 : Int) : Rat) * (2 : Rat) ^ (Int.log 2 x - 52) =
        (2 : Rat) ^ (Int.log 2 x + 1) := by
      rw [zpow_sub₀ (by norm_num : (2 : Rat) ≠ 0), zpow_add₀ (by norm_num : (2 : Rat) ≠ 0)]
      push_cast
      field_simp
      ring
    rw [this]; exact le_of_lt hhi
  obtain ⟨hr1, hr2⟩ := round_even_bounds hq1 hq2
  have hval : round_b64 x = (round_even (x / (2 : Rat) ^ (Int.log 2 x - 52)) : Rat) *
      (2 : Rat) ^ (Int.log 2 x - 52) := by
    unfold round_b64
    rw [if_neg (ne_of_gt hpos), abs_of_pos hpos]
  rw [hval]
  constructor
  · have : (0 : Rat) ≤ (round_even (x / (2 : Rat) ^ (Int.log 2 x - 52)) : Rat) := by
      have : (0 : Int) ≤ round_even (x / (2 : Rat) ^ (Int.log 2 x - 52)) := by
        have : (0 : Int) ≤ 2 ^ 52 := by norm_num
        omega
      exact_mod_cast this
    positivity
  · have h53 : (round_even (x / (2 : Rat) ^ (Int.log 2 x - 52)) : Rat) ≤ ((2 ^ 53 : Int) : Rat) := by
      exact_mod_cast hr2
    calc (round_even (x / (2 : Rat) ^ (Int.log 2 x - 52)) : Rat) * (2 : Rat) ^ (Int.log 2 x - 52)
        ≤ ((2 ^ 53 : Int) : Rat) * (2 : Rat) ^ (Int.log 2 x - 52) :=
          mul_le_mul_of_nonneg_right h53 (le_of_lt hulp)
      _ = (2 : Rat) ^ (Int.log 2 x + 1) := by
          rw [zpow_sub₀ (by norm_num : (2 : Rat) ≠ 0), zpow_add₀ (by norm_num : (2 : Rat) ≠ 0)]
          push_cast
          field_simp
          ring
      _ ≤ (2 : Rat) ^ (0 : Int) := zpow_le_zpow_right₀ (by norm_num) hneg
      _ = 1 := by norm_num

theorem round_b64_inv_pow (n : ℕ) : round_b64 ((2 ^ n : Rat)⁻¹) = (2 ^ n : Rat)⁻¹ := by
  have h := round_b64_two_zpow (-(n : Int))
  rw [zpow_neg, zpow_natCast] at h
  exact h

theorem round_b64_half : round_b64 (2⁻¹ : Rat) = 2⁻¹ := by
  have h := round_b64_inv_pow 1
  simpa using h

theorem round_b64_one : round_b64 1 = 1 := by
  have h := round_b64_two_zpow 0
  simpa using h

theorem round_b64_below_one_inv : round_b64 (1 - (2 ^ 57 : Rat)⁻¹) = 1 := by
  have h := round_b64_below_one
  rw [one_div] at h
  exact h

/-- The state `ex_FD_tiny_run` is `ex_FD_tiny` after one `_prdic_procrastinate_FD`
in binary64 arithmetic, with an uninterrupted sleep and the clock read at the
epoch (100 s). -/
theorem ex_FD_tiny_run_eval :
    _prdic_procrastinate_FD deps_FD_b64 ex_FD_tiny [(0, ⟨0, 0⟩)] (some ⟨100, 0⟩) =
      .ret (ex_FD_tiny_run, 0) := by
  have e1 : (2⁻¹ : Rat) * (2 ^ 60)⁻¹ = (2 ^ 61)⁻¹ := by norm_num
  have e2 : (1 : Rat) - 2⁻¹ = 2⁻¹ := by norm_num
  have e3 : ((2 ^ 61)⁻¹ : Rat) + (2 ^ 61)⁻¹ = (2 ^ 60)⁻¹ := by norm_num
  have e4 : ¬ ((2 ^ 60 : Rat) ≤ 0) := by norm_num
  have e5 : ¬ ((8⁻¹ : Rat) < (2 ^ 60)⁻¹) := by norm_num
  have e6 : ¬ ((2 ^ 60 : Rat) < 0) := by norm_num
  have e7 : ((2 ^ 60)⁻¹ : Rat) * 8 = (2 ^ 57)⁻¹ := by norm_num
  simp [_prdic_procrastinate_FD, deps_FD_b64, ex_FD_tiny, ex_FD_tiny_run, sleep_loop, getttime,
    ts_of_ns, ts_to_ns, NSEC_IN_SEC, timespec2dtime, recfilter_apply_b64, round_b64_zero,
    round_b64_half, round_b64_one, round_b64_inv_pow, round_b64_below_one_inv,
    e1, e2, e3, e4, e5, e6, e7]

/-! ## The claims -/

/-- C1: on an instance just created by `prdic_init`, N successive successful
`prdic_addband` calls (one per frequency of `freqs`) return `1, 2, ..., N` in
that order, and the band list then holds exactly the ids `0, 1, ..., N` in
list order, the built-in band (first in the list) having id `0`. -/
theorem C1_addband_returns_sequential_ids (E : prdic_deps) (clock : timespec)
    (freq_hz off : Rat) (freqs : List Rat) (fuel : Nat) (hfuel : freqs.length ≤ fuel) :
    ∃ pip0 pipN lN,
      prdic_init E true (some clock) freq_hz off = .ret (some pip0) ∧
      addband_seq fuel pip0 freqs =
        .ret (pipN, (List.range' 1 freqs.length).map Int.ofNat) ∧
      Chain pipN (some 0) lN ∧
      ids_of lN = (List.range (freqs.length + 1)).map Int.ofNat := by
  obtain ⟨pip0, hinit, hc0, hid0, _, _, _⟩ := prdic_init_chain E clock freq_hz off
  have hids0 : ids_of [(0, pip0.bands)] = id_range (0 + 1) := by
    rw [show id_range (0 + 1) = [0] from rfl]
    simp [ids_of, hid0]
  obtain ⟨pipN, lN, hseq, hcN, hidsN⟩ :=
    addband_seq_ids fuel freqs pip0 _ 0 hc0 hids0 (by omega)
  refine ⟨pip0, pipN, lN, hinit, ?_, hcN, ?_⟩
  · simpa using hseq
  · rw [hidsN, id_range, show 0 + 1 + freqs.length = freqs.length + 1 by omega]

/-- C1 at a concrete input: three bands added to a fresh 10 Hz instance. -/
theorem C1_addband_returns_sequential_ids_witness :
    (3 : Nat) ≤ 3 ∧
    ∃ pip0 pipN lN,
      prdic_init deps_spec true (some ⟨100, 0⟩) 10 0 = .ret (some pip0) ∧
      addband_seq 3 pip0 [50, 20, 5] = .ret (pipN, [1, 2, 3]) ∧
      Chain pipN (some 0) lN ∧ ids_of lN = [0, 1, 2, 3] :=
  ⟨by decide, C1_addband_returns_sequential_ids deps_spec ⟨100, 0⟩ 10 0 [50, 20, 5] 3 (by decide)⟩

/-- C2: for an instance whose band list `l` ends at `NULL` and whose active
band is `ab`, and a band id `bnum` present in the list and different from
`ab.id`: `prdic_useband` returns, the new active band is a band of the list
that had id `bnum` and still has it, its epoch is (whole seconds of
`ab.last_tclk`, zero nanoseconds) times `ab.period` plus `ab.epoch`, and its
detector `target_tclk` is zero. -/
theorem C2_useband_rebases_epoch (E : prdic_deps) (fuel : Nat) (pip : prdic_inst)
    (l : List (Nat × prdic_band)) (bnum : Int) (ab : prdic_band)
    (hc : Chain pip (some 0) l) (hfuel : l.length < fuel)
    (hab : pip.deref pip.ab = some ab)
    (hmem : bnum ∈ ids_of l) (hne : bnum ≠ ab.id) :
    ∃ pip' ob nb, prdic_useband E fuel pip bnum = .ret pip' ∧
      (pip'.ab, ob) ∈ l ∧ ob.id = bnum ∧
      pip'.deref pip'.ab = some nb ∧ nb.id = bnum ∧
      nb.epoch = E.timespecadd (E.timespecmul ⟨SEC ab.last_tclk, 0⟩ ab.period) ab.epoch ∧
      nb.phase_detector.target_tclk = ⟨0, 0⟩ := by
  obtain ⟨x, hx⟩ := (find_id_isSome l bnum).2 hmem
  have hxl := List.mem_of_find?_eq_some hx
  have hid := List.find?_some hx
  simp only [decide_eq_true_eq] at hid
  have hd := hc.deref_of_mem x hxl
  refine ⟨useband_result E pip ab x.1 x.2, x.2, set_epoch_band x.2 (useband_epoch E ab),
    ?_, hxl, hid, ?_, hid, rfl, rfl⟩
  · rw [prdic_useband_chain E hc hfuel hab hne, hx]
  · show ({ pip.store x.1 _ with ab := x.1 } : prdic_inst).deref x.1 = _
    rw [deref_with_ab, deref_store, if_pos rfl, hd]
    rfl

/-- C2 at a concrete input: switching the two-band instance `ex_two` from its
10 Hz band, which measured 5.5 cycles since epoch 100 s, to band 1. -/
theorem C2_useband_rebases_epoch_witness :
    ∃ pip' ob nb, prdic_useband deps_spec 3 ex_two 1 = .ret pip' ∧
      (pip'.ab, ob) ∈ ex_two_list ∧ ob.id = 1 ∧
      pip'.deref pip'.ab = some nb ∧ nb.id = 1 ∧
      nb.epoch = ⟨100, 500000000⟩ ∧
      nb.phase_detector.target_tclk = ⟨0, 0⟩ :=
  C2_useband_rebases_epoch deps_spec 3 ex_two ex_two_list 1 { ex_band0 with next := some 1 }
    ex_two_chain (by decide) rfl (by decide) (by decide)

/-- C3: for an instance that satisfies the invariant (band list `l` ending at
`NULL`, active band on it) and every integer `bnum`: the assertion of
`prdic_useband` fires if and only if no band of the list has id `bnum`, and
for every id that is in the list the call returns. -/
theorem C3_useband_fails_iff_unknown_id (E : prdic_deps) (fuel : Nat) (pip : prdic_inst)
    (l : List (Nat × prdic_band)) (bnum : Int)
    (hinv : inst_inv pip l) (hfuel : l.length < fuel) :
    (prdic_useband E fuel pip bnum = .assert_fail ↔ bnum ∉ ids_of l) ∧
    (bnum ∈ ids_of l → ∃ pip', prdic_useband E fuel pip bnum = .ret pip') := by
  obtain ⟨x, hx, hxa⟩ := List.mem_map.1 hinv.ab_mem
  have hab : pip.deref pip.ab = some x.2 := by
    rw [← hxa]; exact hinv.chain.deref_of_mem x hx
  by_cases hb : bnum = x.2.id
  · have hret : prdic_useband E fuel pip bnum = .ret pip := by
      simp only [prdic_useband, hab, if_pos hb]
    have hmem : bnum ∈ ids_of l := hb ▸ active_id_mem hinv.chain hinv.ab_mem hab
    refine ⟨⟨fun h => ?_, fun h => absurd hmem h⟩, fun _ => ⟨pip, hret⟩⟩
    rw [hret] at h
    cases h
  · rw [prdic_useband_chain E hinv.chain hfuel hab hb]
    cases hfind : l.find? (fun x => decide (x.2.id = bnum)) with
    | none =>
      have hnot : bnum ∉ ids_of l := by
        intro hm
        obtain ⟨y, hy⟩ := (find_id_isSome l bnum).2 hm
        rw [hfind] at hy
        cases hy
      exact ⟨⟨fun _ => hnot, fun _ => rfl⟩, fun hm => absurd hm hnot⟩
    | some y =>
      have hm : bnum ∈ ids_of l := (find_id_isSome l bnum).1 ⟨y, hfind⟩
      refine ⟨⟨fun h => ?_, fun h => absurd hm h⟩, fun _ => ⟨_, rfl⟩⟩
      cases h

/-- C3 at a concrete input: on the two-band instance `ex_two`, id 7 is unknown
and the assertion fires, while id 1 is found. -/
theorem C3_useband_fails_iff_unknown_id_witness :
    (prdic_useband deps_spec 3 ex_two 7 = .assert_fail ↔ (7 : Int) ∉ ids_of ex_two_list) ∧
    ((7 : Int) ∈ ids_of ex_two_list → ∃ pip', prdic_useband deps_spec 3 ex_two 7 = .ret pip') :=
  C3_useband_fails_iff_unknown_id deps_spec 3 ex_two ex_two_list 7
    ⟨ex_two_chain, by decide, by decide⟩ (by decide)

/-- C4, refuted as stated, on a run that starts at `prdic_init(10.0, 0.0)` (clock
100 s): one `prdic_procrastinate` (clock 100.55 s, 5.5 cycles measured) and
`prdic_addband(50.0)` give the two-band instance `ex_two`, on which
`prdic_getncycles_ref` returns 5.  After `prdic_useband(1)` it returns 0, after
a `prdic_procrastinate` on band 1 (clock 100.57 s) it returns 3, after switching
back with `prdic_useband(0)` it returns 5, and after the next
`prdic_procrastinate` (clock 100.66 s) it returns 1.  The clock never went back,
and the count went below 5 both during and after the sequence. -/
theorem C4_counterexample :
    prdic_init deps_spec true (some ⟨100, 0⟩) 10 0 = .ret (some ex_fresh) ∧
    prdic_procrastinate deps_spec ex_fresh [(0, ⟨0, 0⟩)] (some ⟨100, 550000000⟩) =
      .ret (ex_run, 0) ∧
    prdic_addband 1 ex_run true 50 = .ret (ex_two, 1) ∧
    prdic_getncycles_ref ex_two = .ret 5 ∧
    prdic_useband deps_spec 3 ex_two 1 = .ret ex_sw ∧
    prdic_getncycles_ref ex_sw = .ret 0 ∧
    prdic_procrastinate deps_spec ex_sw [(0, ⟨0, 0⟩)] (some ⟨100, 570000000⟩) =
      .ret (ex_sw_run, 0) ∧
    prdic_getncycles_ref ex_sw_run = .ret 3 ∧
    prdic_useband deps_spec 3 ex_sw_run 0 = .ret ex_back ∧
    prdic_getncycles_ref ex_back = .ret 5 ∧
    prdic_procrastinate deps_spec ex_back [(0, ⟨0, 0⟩)] (some ⟨100, 660000000⟩) =
      .ret (ex_back_run, 0) ∧
    prdic_getncycles_ref ex_back_run = .ret 1 :=
  ⟨ex_fresh_init, ex_run_procrastinate, ex_two_addband, rfl, ex_sw_useband, rfl,
    ex_sw_run_procrastinate, rfl, ex_back_useband, rfl, ex_back_run_procrastinate, rfl⟩

/-- C4, amended: for an instance that satisfies the invariant, whose active band
is `A`, and a band id `bnum` of another band `B` of the list: `prdic_useband(B)`,
then zero or more `prdic_procrastinate` calls (any clock readings, sleeps that
complete), then `prdic_useband(A)` all return.  Right after the first switch
`prdic_getncycles_ref` returns the whole seconds of `B`'s own `last_tclk`; right
after the switch back `A` is active again and `prdic_getncycles_ref` returns
exactly the value it returned before the first switch, the whole seconds of
`A.last_tclk`.  Nothing is promised for the values read while `B` is active or
after a later `prdic_procrastinate`. -/
theorem C4_switch_back_restores_count (E : prdic_deps) (fuel : Nat) (pip : prdic_inst)
    (l : List (Nat × prdic_band)) (bnum : Int) (A : prdic_band)
    (calls : List (List (Int × timespec) × timespec))
    (hinv : inst_inv pip l) (hfuel : l.length < fuel)
    (hab : pip.deref pip.ab = some A)
    (hB : bnum ∈ ids_of l) (hne : bnum ≠ A.id)
    (hsleep : ∀ c ∈ calls, ∀ t, sleep_loop c.1 t ≠ none) :
    ∃ pip1 pip2 pip3 B, prdic_useband E fuel pip bnum = .ret pip1 ∧
      procrastinate_seq E pip1 calls = .ret pip2 ∧
      prdic_useband E fuel pip2 A.id = .ret pip3 ∧
      (pip1.ab, B) ∈ l ∧ B.id = bnum ∧
      prdic_getncycles_ref pip = .ret (SEC A.last_tclk) ∧
      prdic_getncycles_ref pip1 = .ret (SEC B.last_tclk) ∧
      pip3.ab = pip.ab ∧
      prdic_getncycles_ref pip3 = .ret (SEC A.last_tclk) := by
  obtain ⟨x, hx⟩ := (find_id_isSome l bnum).2 hB
  have hxl := List.mem_of_find?_eq_some hx
  have hid := List.find?_some hx
  simp only [decide_eq_true_eq] at hid
  have hdx := hinv.chain.deref_of_mem x hxl
  have h1 : prdic_useband E fuel pip bnum = .ret (useband_result E pip A x.1 x.2) := by
    rw [prdic_useband_chain E hinv.chain hfuel hab hne, hx]
  have hinv1 := inst_inv_useband E A hinv hxl
  have hd1 := deref_useband_result E A hdx
  have hAmem : (pip.ab, A) ∈ l := active_mem hinv.chain hinv.ab_mem hab
  have hne_addr : pip.ab ≠ x.1 := by
    intro h
    rw [h, hdx] at hab
    cases hab
    exact hne hid.symm
  have hAmem1 : (pip.ab, A) ∈
      list_store l x.1 (set_epoch_band x.2 (useband_epoch E A)) :=
    List.mem_map.2 ⟨(pip.ab, A), hAmem, by simp [hne_addr]⟩
  have hlen1 : (list_store l x.1 (set_epoch_band x.2 (useband_epoch E A))).length =
      l.length := by
    simp [list_store]
  -- the calls made while `B` is active
  obtain ⟨pip2, l2, b2, hseq, hinv2, hlen2, hAmem2, hab2, hd2, hid2⟩ :=
    procrastinate_seq_keeps E calls _ _ pip.ab A _ hinv1 hAmem1 hne_addr hd1 hsleep
  have hne' : A.id ≠ b2.id := by
    rw [hid2]
    show A.id ≠ x.2.id
    rw [hid]
    exact fun h => hne h.symm
  have hfind := find_id_unique hinv2.ids_inc hAmem2
  have h3 := prdic_useband_chain E hinv2.chain (by rw [hlen2, hlen1]; exact hfuel) hd2 hne'
  rw [hfind] at h3
  have hdA2 := hinv2.chain.deref_of_mem _ hAmem2
  have hd3 := deref_useband_result E b2 hdA2
  refine ⟨_, pip2, _, x.2, h1, hseq, h3, hxl, hid, ?_, ?_, rfl, ?_⟩
  · simp only [prdic_getncycles_ref, hab]
  · simp only [prdic_getncycles_ref, hd1]
    rfl
  · simp only [prdic_getncycles_ref, hd3]
    rfl

/-- C4 amended, at a concrete input: `ex_two` switched to band 1, one
`prdic_procrastinate` at clock 100.57 s, and switched back. -/
theorem C4_switch_back_restores_count_witness :
    ∃ pip1 pip2 pip3 B, prdic_useband deps_spec 3 ex_two 1 = .ret pip1 ∧
      procrastinate_seq deps_spec pip1 [([(0, ⟨0, 0⟩)], ⟨100, 570000000⟩)] = .ret pip2 ∧
      prdic_useband deps_spec 3 pip2 0 = .ret pip3 ∧
      (pip1.ab, B) ∈ ex_two_list ∧ B.id = 1 ∧
      prdic_getncycles_ref ex_two = .ret 5 ∧
      prdic_getncycles_ref pip1 = .ret (SEC B.last_tclk) ∧
      pip3.ab = 0 ∧
      prdic_getncycles_ref pip3 = .ret 5 :=
  C4_switch_back_restores_count deps_spec 3 ex_two ex_two_list 1
    { ex_band0 with next := some 1 } [([(0, ⟨0, 0⟩)], ⟨100, 570000000⟩)]
    ⟨ex_two_chain, by decide, by decide⟩ (by decide) rfl
    (by decide) (by decide)
    (by
      intro c hc t
      simp only [List.mem_singleton] at hc
      subst hc
      simp [sleep_loop])

/-- C5, refuted as stated: with a successful allocation and an unavailable
monotonic clock, `prdic_init` returns `NULL`; it does not abort. -/
theorem C5_counterexample :
    prdic_init deps_spec true none 10 0 = .ret none ∧
    getttime none timespec_zero false = .ret (-1, timespec_zero) :=
  ⟨rfl, rfl⟩

/-- C5, amended: `prdic_init` returns `NULL` exactly when the allocation fails
or the monotonic clock is unavailable (it calls `getttime` with
`abort_on_fail = 0`); it never aborts, and when the allocation succeeds and the
clock can be read the result is an instance, not `NULL`. -/
theorem C5_init_null_iff_alloc_or_clock_fails (E : prdic_deps) (malloc_ok : Bool)
    (clock : Option timespec) (freq_hz off : Rat) :
    (prdic_init E malloc_ok clock freq_hz off = .ret none ↔
      (malloc_ok = false ∨ clock = none)) ∧
    prdic_init E malloc_ok clock freq_hz off ≠ .aborted ∧
    (∀ t, malloc_ok = true ∧ clock = some t →
      ∃ pip, prdic_init E malloc_ok clock freq_hz off = .ret (some pip)) := by
  cases malloc_ok <;> cases clock <;> simp [prdic_init, getttime]

/-- C6: for an instance whose active band is `ab`: `prdic_set_fparams` fails
(the assertion fires) if and only if `ab.loop_error.lastval` is not 0; when
`lastval` is 0 it returns, the active pointer is unchanged, the active band's
`loop_error` coefficient is the given value and its `lastval` is untouched,
still 0. -/
theorem C6_set_fparams_needs_zero_lastval (pip : prdic_inst) (ab : prdic_band) (fcoef : Rat)
    (hab : pip.deref pip.ab = some ab) :
    (prdic_set_fparams pip fcoef = .assert_fail ↔ ab.loop_error.lastval ≠ 0) ∧
    (ab.loop_error.lastval = 0 →
      ∃ pip' ab', prdic_set_fparams pip fcoef = .ret pip' ∧ pip'.ab = pip.ab ∧
        pip'.deref pip'.ab = some ab' ∧ ab'.loop_error.coefficient = fcoef ∧
        ab'.loop_error.lastval = ab.loop_error.lastval ∧ ab'.loop_error.lastval = 0) := by
  by_cases h0 : ab.loop_error.lastval = 0
  · have hret : prdic_set_fparams pip fcoef =
        .ret (pip.store pip.ab
          { ab with loop_error := { ab.loop_error with coefficient := fcoef } }) := by
      simp [prdic_set_fparams, hab, h0, recfilter_adjust]
    refine ⟨⟨fun h => ?_, fun h => absurd h0 h⟩, fun _ => ⟨_,
      { ab with loop_error := { ab.loop_error with coefficient := fcoef } },
      hret, store_ab _ _ _, ?_, rfl, rfl, h0⟩⟩
    · rw [hret] at h; cases h
    · rw [store_ab, deref_store, if_pos rfl, hab]; rfl
  · refine ⟨⟨fun _ => h0, fun _ => ?_⟩, fun h => absurd h h0⟩
    simp [prdic_set_fparams, hab, h0]

/-- C6 at a concrete input: a fresh 10 Hz instance takes the coefficient 0.5. -/
theorem C6_set_fparams_needs_zero_lastval_witness :
    (prdic_set_fparams ex_fresh (1 / 2) = .assert_fail ↔
      ex_fresh.bands.loop_error.lastval ≠ 0) ∧
    (ex_fresh.bands.loop_error.lastval = 0 →
      ∃ pip' ab', prdic_set_fparams ex_fresh (1 / 2) = .ret pip' ∧ pip'.ab = ex_fresh.ab ∧
        pip'.deref pip'.ab = some ab' ∧ ab'.loop_error.coefficient = 1 / 2 ∧
        ab'.loop_error.lastval = ex_fresh.bands.loop_error.lastval ∧
        ab'.loop_error.lastval = 0) :=
  C6_set_fparams_needs_zero_lastval ex_fresh ex_fresh.bands (1 / 2) rfl

/-- C7, refuted as stated: `prdic_init(1.0, 1.0)` at clock 100 s gives an
instance whose epoch is 101 s; `prdic_set_fparams(0.5)` succeeds; the following
`prdic_procrastinate` reads the clock at 101 s, measures zero elapsed cycles and
a zero error, and leaves `loop_error.lastval` at 0; the second
`prdic_set_fparams(0.25)` then succeeds instead of failing. -/
theorem C7_counterexample :
    prdic_init deps_spec true (some ⟨100, 0⟩) 1 1 = .ret (some ex_late) ∧
    prdic_set_fparams ex_late (1 / 2) = .ret ex_late_set ∧
    prdic_procrastinate deps_spec ex_late_set [(0, ⟨0, 0⟩)] (some ⟨101, 0⟩) =
      .ret (ex_late_run, 0) ∧
    prdic_set_fparams ex_late_run (1 / 4) = .ret ex_late_set2 :=
  ⟨ex_late_init, ex_late_set_fparams, ex_late_run_procrastinate, ex_late_set2_fparams⟩

/-- C7, amended: for a freshly created instance, coefficients `c1`, `c2` in
(0,1), a sleep that completes, every clock reading and a squashing function
that maps non-zero errors to non-zero values: after `prdic_set_fparams(c1)` and
one `prdic_procrastinate`, the second `prdic_set_fparams(c2)` fails with a
contract violation if and only if the detector error measured by that
`prdic_procrastinate` call was non-zero; when the error was exactly zero the
filter was not applied and the second call succeeds. -/
theorem C7_second_set_fparams_fails_iff_error (E : prdic_deps) (clock0 now : timespec)
    (freq_hz off c1 c2 : Rat) (sleeps : List (Int × timespec))
    (hc1 : 0 < c1 ∧ c1 < 1) (_hc2 : 0 < c2 ∧ c2 < 1)
    (hsleep : ∀ t, sleep_loop sleeps t ≠ none)
    (hsig : ∀ x, x ≠ 0 → E.sigmoid x ≠ 0) :
    ∃ pip0 pip1 pip2,
      prdic_init E true (some clock0) freq_hz off = .ret (some pip0) ∧
      prdic_set_fparams pip0 c1 = .ret pip1 ∧
      prdic_procrastinate E pip1 sleeps (some now) = .ret (pip2, 0) ∧
      (prdic_set_fparams pip2 c2 = .assert_fail ↔
        (E.PFD_get_error ⟨⟨0, 0⟩⟩
          (E.timespecmul (E.timespecsub now pip0.bands.epoch) pip0.bands.tfreq_hz)).1 ≠ 0) ∧
      ((E.PFD_get_error ⟨⟨0, 0⟩⟩
          (E.timespecmul (E.timespecsub now pip0.bands.epoch) pip0.bands.tfreq_hz)).1 = 0 →
        ∃ pip3, prdic_set_fparams pip2 c2 = .ret pip3) := by
  obtain ⟨pip0, hinit, _, _, _, hab0, hheap⟩ := prdic_init_chain E clock0 freq_hz off
  have hb0 : pip0.bands.loop_error = ⟨96 / 100, 0⟩ ∧ pip0.bands.phase_detector = ⟨⟨0, 0⟩⟩ := by
    simp only [prdic_init, getttime, Bool.not_true, Bool.false_eq_true, if_false, ne_eq,
      not_true_eq_false, Outcome.ret.injEq, Option.some.injEq] at hinit
    rw [← hinit]
    exact ⟨rfl, rfl⟩
  obtain ⟨hle, hpd⟩ := hb0
  have hd0 : pip0.deref pip0.ab = some pip0.bands := by rw [hab0]; rfl
  -- the first `prdic_set_fparams`
  have h1 := prdic_set_fparams_ret pip0 c1 hd0 (by rw [hle])
  rw [hab0] at h1
  have hd1 : (pip0.store 0 { pip0.bands with
      loop_error := { pip0.bands.loop_error with coefficient := c1 } }).deref
      (pip0.store 0 { pip0.bands with
        loop_error := { pip0.bands.loop_error with coefficient := c1 } }).ab =
      some { pip0.bands with
        loop_error := { pip0.bands.loop_error with coefficient := c1 } } := by
    rw [store_ab, hab0]; rfl
  -- the `prdic_procrastinate` call
  have h2 := prdic_procrastinate_ret E now hd1 hsleep
  rw [store_ab, hab0] at h2
  refine ⟨pip0, _, _, hinit, h1, h2, ?_⟩
  by_cases herr : (E.PFD_get_error ⟨⟨0, 0⟩⟩
      (E.timespecmul (E.timespecsub now pip0.bands.epoch) pip0.bands.tfreq_hz)).1 = 0
  · have hlv : (procrastinate_band E { pip0.bands with
        loop_error := { pip0.bands.loop_error with coefficient := c1 } }
        now).loop_error.lastval = 0 := by
      simp only [procrastinate_band, measured_tclk, hpd, herr, ne_eq, not_true_eq_false,
        if_false, hle]
    have h3 := prdic_set_fparams_ret ((pip0.store 0 { pip0.bands with
        loop_error := { pip0.bands.loop_error with coefficient := c1 } }).store 0
        (procrastinate_band E { pip0.bands with
          loop_error := { pip0.bands.loop_error with coefficient := c1 } } now)) c2
      (by rw [store_ab, store_ab, hab0]; rfl) hlv
    refine ⟨⟨fun h => ?_, fun h => absurd herr h⟩, fun _ => ⟨_, h3⟩⟩
    rw [h3] at h
    cases h
  · have hlv : (procrastinate_band E { pip0.bands with
        loop_error := { pip0.bands.loop_error with coefficient := c1 } }
        now).loop_error.lastval ≠ 0 := by
      have hne1 : (1 - c1) ≠ 0 := by linarith [hc1.2]
      have hne2 := hsig _ herr
      simp only [procrastinate_band, measured_tclk, hpd, herr, ne_eq, not_false_eq_true,
        if_true, hle, recfilter_apply, mul_zero, zero_add]
      exact mul_ne_zero hne1 hne2
    have h3 := prdic_set_fparams_fail ((pip0.store 0 { pip0.bands with
        loop_error := { pip0.bands.loop_error with coefficient := c1 } }).store 0
        (procrastinate_band E { pip0.bands with
          loop_error := { pip0.bands.loop_error with coefficient := c1 } } now)) c2
      (by rw [store_ab, store_ab, hab0]; rfl) hlv
    exact ⟨⟨fun _ => herr, fun _ => h3⟩, fun h => absurd h herr⟩

/-- C7 amended, at a concrete input: a fresh 10 Hz instance, coefficients 0.5
and 0.25, an uninterrupted sleep and the clock read at 100.55 s. -/
theorem C7_second_set_fparams_fails_iff_error_witness :
    ∃ pip0 pip1 pip2,
      prdic_init deps_spec true (some ⟨100, 0⟩) 10 0 = .ret (some pip0) ∧
      prdic_set_fparams pip0 (1 / 2) = .ret pip1 ∧
      prdic_procrastinate deps_spec pip1 [(0, ⟨0, 0⟩)] (some ⟨100, 550000000⟩) =
        .ret (pip2, 0) ∧
      (prdic_set_fparams pip2 (1 / 4) = .assert_fail ↔
        (deps_spec.PFD_get_error ⟨⟨0, 0⟩⟩
          (deps_spec.timespecmul (deps_spec.timespecsub ⟨100, 550000000⟩ pip0.bands.epoch)
            pip0.bands.tfreq_hz)).1 ≠ 0) ∧
      ((deps_spec.PFD_get_error ⟨⟨0, 0⟩⟩
          (deps_spec.timespecmul (deps_spec.timespecsub ⟨100, 550000000⟩ pip0.bands.epoch)
            pip0.bands.tfreq_hz)).1 = 0 →
        ∃ pip3, prdic_set_fparams pip2 (1 / 4) = .ret pip3) :=
  C7_second_set_fparams_fails_iff_error deps_spec ⟨100, 0⟩ ⟨100, 550000000⟩ 10 0 (1 / 2)
    (1 / 4) [(0, ⟨0, 0⟩)] (by norm_num) (by norm_num)
    (by intro t; simp [sleep_loop])
    (by
      intro x hx
      have h : (0 : Rat) < 1 + |x| := by positivity
      exact div_ne_zero hx (ne_of_gt h))

/-- C8: for an instance whose band list `l` ends at `NULL` (whichever band is
active, whatever the epochs of the other bands) and every `freq_hz`: a
successful `prdic_addband` returns the old tail's id plus 1 and leaves the list
`l` with exactly one new band linked behind the old tail; the new band has the
current epoch of the built-in band `bands[0]`, the given `freq_hz`, a zero
detector target, `loop_error.lastval = 0`, the old tail's id plus 1, and no
successor; the active pointer is unchanged. -/
theorem C8_addband_appends_one_band (fuel : Nat) (pip : prdic_inst)
    (l : List (Nat × prdic_band)) (freq_hz : Rat)
    (hc : Chain pip (some 0) l) (hfuel : l.length ≤ fuel) :
    ∃ t bt pip' nb, l.getLast? = some (t, bt) ∧
      prdic_addband fuel pip true freq_hz = .ret (pip', bt.id + 1) ∧
      Chain pip' (some 0)
        (l.dropLast ++ [(t, { bt with next := some (pip.heap.length + 1) }),
          (pip.heap.length + 1, nb)]) ∧
      nb.epoch = pip.bands.epoch ∧ nb.freq_hz = freq_hz ∧
      nb.phase_detector.target_tclk = ⟨0, 0⟩ ∧ nb.loop_error.lastval = 0 ∧
      nb.id = bt.id + 1 ∧ nb.next = none ∧ pip'.ab = pip.ab := by
  obtain ⟨t, bt, pip', hlast, hadd, hc', hab⟩ := prdic_addband_chain fuel freq_hz hc hfuel
  exact ⟨t, bt, pip', addband_new pip freq_hz bt.id, hlast, hadd, hc', rfl, rfl, rfl, rfl,
    rfl, rfl, hab⟩

/-- C8 at a concrete input: a 20 Hz band added to `ex_sw`, whose active band 1
has epoch 100.5 s while the built-in band has epoch 100 s. -/
theorem C8_addband_appends_one_band_witness :
    ∃ t bt pip' nb, ex_sw_list.getLast? = some (t, bt) ∧
      prdic_addband 2 ex_sw true 20 = .ret (pip', bt.id + 1) ∧
      Chain pip' (some 0)
        (ex_sw_list.dropLast ++ [(t, { bt with next := some (ex_sw.heap.length + 1) }),
          (ex_sw.heap.length + 1, nb)]) ∧
      nb.epoch = ⟨100, 0⟩ ∧ nb.freq_hz = 20 ∧
      nb.phase_detector.target_tclk = ⟨0, 0⟩ ∧ nb.loop_error.lastval = 0 ∧
      nb.id = bt.id + 1 ∧ nb.next = none ∧ pip'.ab = 1 :=
  C8_addband_appends_one_band 2 ex_sw ex_sw_list 20
    (Chain.cons rfl (Chain.cons rfl Chain.nil)) (by decide)

/-- C9: in every state reachable from `prdic_init` by any sequence of returning
`prdic_addband`, `prdic_useband`, `prdic_set_epoch`, `prdic_set_fparams` and
`prdic_procrastinate` calls, following `next` from `bands[0]` ends at `NULL`
after finitely many bands, band ids strictly increase along the list (hence
are distinct), and the active pointer is the address of exactly one band of
the list. -/
theorem C9_reachable_states_keep_invariant (E : prdic_deps) (pip : prdic_inst)
    (h : Reachable E pip) :
    ∃ l, Chain pip (some 0) l ∧ (ids_of l).Pairwise (fun i j => i < j) ∧
      (ids_of l).Nodup ∧ (addrs_of l).count pip.ab = 1 := by
  obtain ⟨l, hl⟩ := reachable_inv h
  exact ⟨l, hl.chain, hl.ids_inc, ids_nodup hl.ids_inc,
    List.count_eq_one_of_mem (addrs_nodup hl.chain hl.ids_inc) hl.ab_mem⟩

/-- C9 at a concrete input: the state `ex_sw`, reached by `prdic_init`,
`prdic_procrastinate`, `prdic_addband` and `prdic_useband`. -/
theorem C9_reachable_states_keep_invariant_witness :
    ∃ l, Chain ex_sw (some 0) l ∧ (ids_of l).Pairwise (fun i j => i < j) ∧
      (ids_of l).Nodup ∧ (addrs_of l).count ex_sw.ab = 1 :=
  C9_reachable_states_keep_invariant deps_spec ex_sw
    (Reachable.useband
      (Reachable.addband
        (Reachable.procrastinate (Reachable.init ex_fresh_init) ex_run_procrastinate)
        ex_two_addband)
      ex_sw_useband)

/-- C10: frequency-detector loop: for every band state with `period > 0`, every
clock reading, every raw detector error and every sleep that completes,
`_prdic_procrastinate_FD` returns 0 and leaves the active band's
`add_delay_fltrd.lastval` in the closed interval `[0, period]`, the period
itself being unchanged. -/
theorem C10_add_delay_fltrd_clamped (E : prdic_deps_FD) (pip : prdic_inst_FD)
    (sleeps : List (Int × timespec)) (now : timespec)
    (hper : 0 < pip.ab.period) (hsleep : ∀ t, sleep_loop sleeps t ≠ none) :
    ∃ pip', _prdic_procrastinate_FD E pip sleeps (some now) = .ret (pip', 0) ∧
      0 ≤ pip'.ab.add_delay_fltrd.lastval ∧
      pip'.ab.add_delay_fltrd.lastval ≤ pip.ab.period ∧
      pip'.ab.period = pip.ab.period := by
  have hslept : ∃ r, (if pip.ab.add_delay_fltrd.lastval ≤ 0 then some timespec_zero
      else sleep_loop sleeps (dtime2timespec pip.ab.add_delay_fltrd.lastval)) = some r := by
    split
    · exact ⟨_, rfl⟩
    · cases hs : sleep_loop sleeps (dtime2timespec pip.ab.add_delay_fltrd.lastval) with
      | none => exact absurd hs (hsleep _)
      | some r => exact ⟨r, rfl⟩
  obtain ⟨r, hr⟩ := hslept
  simp only [_prdic_procrastinate_FD, hr, getttime]
  refine ⟨_, rfl, ?_, ?_, rfl⟩
  · simp only
    split
    · exact le_refl _
    · split
      · exact le_of_lt hper
      · rename_i h1 _
        exact le_of_not_lt h1
  · simp only
    split
    · exact le_of_lt hper
    · split
      · exact le_refl _
      · rename_i _ h2
        exact le_of_not_lt h2

/-- C10 at a concrete input: a 10 Hz band whose smoothed extra delay already
equals the period, with a late clock reading. -/
theorem C10_add_delay_fltrd_clamped_witness :
    ∃ pip', _prdic_procrastinate_FD deps_FD_spec ex_FD [(0, ⟨0, 0⟩)]
        (some ⟨105, 0⟩) = .ret (pip', 0) ∧
      0 ≤ pip'.ab.add_delay_fltrd.lastval ∧
      pip'.ab.add_delay_fltrd.lastval ≤ ex_FD.ab.period ∧
      pip'.ab.period = ex_FD.ab.period :=
  C10_add_delay_fltrd_clamped deps_FD_spec ex_FD [(0, ⟨0, 0⟩)] ⟨105, 0⟩
    (by norm_num [ex_FD]) (by intro t; simp [sleep_loop])

/-- C11: for an instance whose active band is `ab` and every absolute time `tp`:
`prdic_set_epoch(tp)` returns; afterwards the active band's epoch is `tp` and
its detector `target_tclk` is zero; the active pointer, the active band's
other fields (period, tick scale, frequency, `loop_error`, `last_tclk`, id,
`next`) and the band at every other address are unchanged. -/
theorem C11_set_epoch_frame (pip : prdic_inst) (tp : timespec) (ab : prdic_band)
    (hab : pip.deref pip.ab = some ab) :
    ∃ pip' nb, prdic_set_epoch pip tp = .ret pip' ∧ pip'.ab = pip.ab ∧
      pip'.deref pip.ab = some nb ∧
      nb.epoch = tp ∧ nb.phase_detector.target_tclk = ⟨0, 0⟩ ∧
      nb.period = ab.period ∧ nb.tfreq_hz = ab.tfreq_hz ∧ nb.freq_hz = ab.freq_hz ∧
      nb.loop_error = ab.loop_error ∧ nb.last_tclk = ab.last_tclk ∧ nb.id = ab.id ∧
      nb.next = ab.next ∧
      (∀ a, a ≠ pip.ab → pip'.deref a = pip.deref a) :=
  ⟨pip.store pip.ab (set_epoch_band ab tp), set_epoch_band ab tp,
    prdic_set_epoch_ret pip tp hab, store_ab _ _ _, deref_store_same _ hab,
    rfl, rfl, rfl, rfl, rfl, rfl, rfl, rfl, rfl,
    fun _ ha => deref_store_other pip _ ha⟩

/-- C11 at a concrete input: the epoch of band 1 of `ex_sw` set to 200 s. -/
theorem C11_set_epoch_frame_witness :
    ∃ pip' nb, prdic_set_epoch ex_sw ⟨200, 0⟩ = .ret pip' ∧ pip'.ab = 1 ∧
      pip'.deref 1 = some nb ∧
      nb.epoch = ⟨200, 0⟩ ∧ nb.phase_detector.target_tclk = ⟨0, 0⟩ ∧
      nb.period = ex_band1_sw.period ∧ nb.tfreq_hz = ex_band1_sw.tfreq_hz ∧
      nb.freq_hz = ex_band1_sw.freq_hz ∧
      nb.loop_error = ex_band1_sw.loop_error ∧ nb.last_tclk = ex_band1_sw.last_tclk ∧
      nb.id = ex_band1_sw.id ∧ nb.next = ex_band1_sw.next ∧
      (∀ a, a ≠ 1 → pip'.deref a = ex_sw.deref a) :=
  C11_set_epoch_frame ex_sw ⟨200, 0⟩ ex_band1_sw rfl

/-- C12: for an instance whose active band is `ab`: `prdic_useband` called
with `ab.id` returns at once and the whole instance state is identical before
and after the call, whatever the loop bound. -/
theorem C12_useband_active_is_noop (E : prdic_deps) (fuel : Nat) (pip : prdic_inst)
    (ab : prdic_band) (hab : pip.deref pip.ab = some ab) :
    prdic_useband E fuel pip ab.id = .ret pip := by
  simp only [prdic_useband, hab, if_true]

/-- C12 at a concrete input: `prdic_useband(1)` on `ex_sw`, where band 1 is
active. -/
theorem C12_useband_active_is_noop_witness :
    prdic_useband deps_spec 0 ex_sw 1 = .ret ex_sw :=
  C12_useband_active_is_noop deps_spec 0 ex_sw ex_band1_sw rfl

/-- C13: for every instance reachable from `prdic_init` and every `freq_hz`:
when the allocation fails `prdic_addband` returns -1 and leaves the instance
unchanged; when it succeeds the call returns (given enough loop iterations) a
band id that is at least 1; hence a returned value is -1 exactly when the
allocation failed. -/
theorem C13_addband_minus_one_iff_alloc_fails (E : prdic_deps) (pip : prdic_inst)
    (freq_hz : Rat) (h : Reachable E pip) :
    (∀ fuel, prdic_addband fuel pip false freq_hz = .ret (pip, -1)) ∧
    (∃ fuel0, ∀ fuel, fuel0 ≤ fuel →
      ∃ pip' r, prdic_addband fuel pip true freq_hz = .ret (pip', r) ∧ 1 ≤ r) ∧
    (∀ fuel malloc_ok pip' r, prdic_addband fuel pip malloc_ok freq_hz = .ret (pip', r) →
      (r = -1 ↔ malloc_ok = false) ∧ (malloc_ok = false → pip' = pip) ∧
      (malloc_ok = true → 1 ≤ r)) := by
  obtain ⟨l, hl⟩ := reachable_inv h
  have h0 := reachable_bands_id h
  have hok : ∀ fuel, l.length ≤ fuel →
      ∃ pip' r, prdic_addband fuel pip true freq_hz = .ret (pip', r) ∧ 1 ≤ r := by
    intro fuel hf
    obtain ⟨t, bt, pip', hlast, hadd, _, _⟩ := prdic_addband_chain fuel freq_hz hl.chain hf
    have := last_id_nonneg hl h0 hlast
    exact ⟨pip', bt.id + 1, hadd, by omega⟩
  refine ⟨fun fuel => by simp [prdic_addband], ⟨l.length, hok⟩, ?_⟩
  intro fuel malloc_ok pip' r hr
  cases malloc_ok with
  | false =>
    simp only [prdic_addband, Bool.not_false, if_true, Outcome.ret.injEq,
      Prod.mk.injEq] at hr
    exact ⟨⟨fun _ => rfl, fun _ => hr.2.symm⟩, fun _ => hr.1.symm, fun h => (by cases h)⟩
  | true =>
    have hr' := prdic_addband_mono hr (Nat.le_max_left fuel l.length)
    obtain ⟨pip1, r1, hadd, hge⟩ := hok (max fuel l.length) (Nat.le_max_right fuel l.length)
    rw [hadd] at hr'
    simp only [Outcome.ret.injEq, Prod.mk.injEq] at hr'
    obtain ⟨_, rfl⟩ := hr'
    refine ⟨⟨fun h => ?_, fun h => (by cases h)⟩, fun h => (by cases h), fun _ => hge⟩
    omega

/-- C13 at a concrete input: `prdic_addband(20.0)` on the reachable two-band
instance `ex_two`. -/
theorem C13_addband_minus_one_iff_alloc_fails_witness :
    (∀ fuel, prdic_addband fuel ex_two false 20 = .ret (ex_two, -1)) ∧
    (∃ fuel0, ∀ fuel, fuel0 ≤ fuel →
      ∃ pip' r, prdic_addband fuel ex_two true 20 = .ret (pip', r) ∧ 1 ≤ r) ∧
    (∀ fuel malloc_ok pip' r, prdic_addband fuel ex_two malloc_ok 20 = .ret (pip', r) →
      (r = -1 ↔ malloc_ok = false) ∧ (malloc_ok = false → pip' = ex_two) ∧
      (malloc_ok = true → 1 ≤ r)) :=
  C13_addband_minus_one_iff_alloc_fails deps_spec ex_two 20
    (Reachable.addband
      (Reachable.procrastinate (Reachable.init ex_fresh_init) ex_run_procrastinate)
      ex_two_addband)

/-- C15: for an instance whose active band is `ab`, a sleep that completes and
every clock reading `now` taken inside `prdic_procrastinate`: the call returns,
the active band's `last_tclk` is `(now - ab.epoch) * ab.tfreq_hz` in the
fixed-point arithmetic of `timespecsub` and `timespecmul`, and
`prdic_getncycles_ref`, which only reads the state, returns the whole-seconds
part of that value. -/
theorem C15_procrastinate_measures_tclk (E : prdic_deps) (pip : prdic_inst)
    (ab : prdic_band) (sleeps : List (Int × timespec)) (now : timespec)
    (hab : pip.deref pip.ab = some ab) (hsleep : ∀ t, sleep_loop sleeps t ≠ none) :
    ∃ pip' nb, prdic_procrastinate E pip sleeps (some now) = .ret (pip', 0) ∧
      pip'.deref pip'.ab = some nb ∧
      nb.last_tclk = E.timespecmul (E.timespecsub now ab.epoch) ab.tfreq_hz ∧
      prdic_getncycles_ref pip' =
        .ret (SEC (E.timespecmul (E.timespecsub now ab.epoch) ab.tfreq_hz)) := by
  have hd : (pip.store pip.ab (procrastinate_band E ab now)).deref
      (pip.store pip.ab (procrastinate_band E ab now)).ab =
      some (procrastinate_band E ab now) := by
    rw [store_ab]; exact deref_store_same _ hab
  refine ⟨_, procrastinate_band E ab now, prdic_procrastinate_ret E now hab hsleep, hd,
    rfl, ?_⟩
  simp only [prdic_getncycles_ref, hd]
  rfl

/-- C15 at a concrete input: the fresh 10 Hz instance `ex_fresh` (epoch 100 s)
reads the clock at 100.55 s and reports 5 whole cycles. -/
theorem C15_procrastinate_measures_tclk_witness :
    ∃ pip' nb, prdic_procrastinate deps_spec ex_fresh [(0, ⟨0, 0⟩)]
        (some ⟨100, 550000000⟩) = .ret (pip', 0) ∧
      pip'.deref pip'.ab = some nb ∧
      nb.last_tclk = ⟨5, 500000000⟩ ∧
      prdic_getncycles_ref pip' = .ret 5 :=
  C15_procrastinate_measures_tclk deps_spec ex_fresh ex_fresh.bands [(0, ⟨0, 0⟩)]
    ⟨100, 550000000⟩ rfl sleep_loop_single

/-- C17: for an instance whose active band is `ab`, a sleep that completes and
every clock reading: `prdic_procrastinate` returns 0; when the detector error
for the measured `last_tclk` is exactly 0 the active band's `loop_error` filter
is unchanged; when it is not 0 the filter is the old one applied once to
`sigmoid(error)`, so that `lastval` is
`coefficient*lastval + (1-coefficient)*sigmoid(error)` and the coefficient is
the old one. -/
theorem C17_procrastinate_filters_nonzero_error (E : prdic_deps) (pip : prdic_inst)
    (ab : prdic_band) (sleeps : List (Int × timespec)) (now : timespec)
    (hab : pip.deref pip.ab = some ab) (hsleep : ∀ t, sleep_loop sleeps t ≠ none) :
    ∃ pip' nb, prdic_procrastinate E pip sleeps (some now) = .ret (pip', 0) ∧
      pip'.deref pip'.ab = some nb ∧
      ((E.PFD_get_error ab.phase_detector (measured_tclk E ab now)).1 = 0 →
        nb.loop_error = ab.loop_error) ∧
      ((E.PFD_get_error ab.phase_detector (measured_tclk E ab now)).1 ≠ 0 →
        nb.loop_error = recfilter_apply ab.loop_error
          (E.sigmoid (E.PFD_get_error ab.phase_detector (measured_tclk E ab now)).1) ∧
        nb.loop_error.lastval =
          ab.loop_error.coefficient * ab.loop_error.lastval +
            (1 - ab.loop_error.coefficient) *
              E.sigmoid (E.PFD_get_error ab.phase_detector (measured_tclk E ab now)).1 ∧
        nb.loop_error.coefficient = ab.loop_error.coefficient) := by
  have hd : (pip.store pip.ab (procrastinate_band E ab now)).deref
      (pip.store pip.ab (procrastinate_band E ab now)).ab =
      some (procrastinate_band E ab now) := by
    rw [store_ab]; exact deref_store_same _ hab
  refine ⟨_, procrastinate_band E ab now, prdic_procrastinate_ret E now hab hsleep, hd,
    ?_, ?_⟩
  · intro h0
    simp only [procrastinate_band, h0, ne_eq, not_true_eq_false, if_false]
  · intro hne
    have hle : (procrastinate_band E ab now).loop_error = recfilter_apply ab.loop_error
        (E.sigmoid (E.PFD_get_error ab.phase_detector (measured_tclk E ab now)).1) := by
      simp only [procrastinate_band, hne, ne_eq, not_false_eq_true, if_true]
    refine ⟨hle, ?_, ?_⟩
    · rw [hle]; rfl
    · rw [hle]; rfl

/-- C17 at a concrete input: `ex_fresh` with the clock read at 100.55 s; the
error is 5.5 cycles and the filter is applied once. -/
theorem C17_procrastinate_filters_nonzero_error_witness :
    ∃ pip' nb, prdic_procrastinate deps_spec ex_fresh [(0, ⟨0, 0⟩)]
        (some ⟨100, 550000000⟩) = .ret (pip', 0) ∧
      pip'.deref pip'.ab = some nb ∧
      ((deps_spec.PFD_get_error ex_fresh.bands.phase_detector
          (measured_tclk deps_spec ex_fresh.bands ⟨100, 550000000⟩)).1 = 0 →
        nb.loop_error = ex_fresh.bands.loop_error) ∧
      ((deps_spec.PFD_get_error ex_fresh.bands.phase_detector
          (measured_tclk deps_spec ex_fresh.bands ⟨100, 550000000⟩)).1 ≠ 0 →
        nb.loop_error = recfilter_apply ex_fresh.bands.loop_error
          (deps_spec.sigmoid (deps_spec.PFD_get_error ex_fresh.bands.phase_detector
            (measured_tclk deps_spec ex_fresh.bands ⟨100, 550000000⟩)).1) ∧
        nb.loop_error.lastval =
          ex_fresh.bands.loop_error.coefficient * ex_fresh.bands.loop_error.lastval +
            (1 - ex_fresh.bands.loop_error.coefficient) *
              deps_spec.sigmoid (deps_spec.PFD_get_error ex_fresh.bands.phase_detector
                (measured_tclk deps_spec ex_fresh.bands ⟨100, 550000000⟩)).1 ∧
        nb.loop_error.coefficient = ex_fresh.bands.loop_error.coefficient) :=
  C17_procrastinate_filters_nonzero_error deps_spec ex_fresh ex_fresh.bands [(0, ⟨0, 0⟩)]
    ⟨100, 550000000⟩ rfl sleep_loop_single

/-- C19: for an instance whose band list `l` ends at `NULL`, whose active band
is `ab`, and a band id `bnum` of the list other than `ab.id`: `prdic_useband`
returns; the new active pointer is the address of the band `ob` of the list
with id `bnum`; that band is `ob` with only its epoch and its detector target
replaced (`loop_error`, `last_tclk`, period, tick scale, frequency, id and
`next` are those of `ob`); the band at every other address, the previously
active one included, is unchanged; and `prdic_getncycles_ref` right after the
switch returns the whole seconds of `ob`'s own stale `last_tclk`. -/
theorem C19_useband_frame (E : prdic_deps) (fuel : Nat) (pip : prdic_inst)
    (l : List (Nat × prdic_band)) (bnum : Int) (ab : prdic_band)
    (hc : Chain pip (some 0) l) (hfuel : l.length < fuel)
    (hab : pip.deref pip.ab = some ab)
    (hmem : bnum ∈ ids_of l) (hne : bnum ≠ ab.id) :
    ∃ pip' ob nb, prdic_useband E fuel pip bnum = .ret pip' ∧
      (pip'.ab, ob) ∈ l ∧ ob.id = bnum ∧ pip'.ab ≠ pip.ab ∧
      pip'.deref pip'.ab = some nb ∧
      nb.loop_error = ob.loop_error ∧ nb.last_tclk = ob.last_tclk ∧
      nb.period = ob.period ∧ nb.tfreq_hz = ob.tfreq_hz ∧ nb.freq_hz = ob.freq_hz ∧
      nb.id = ob.id ∧ nb.next = ob.next ∧
      pip'.deref pip.ab = some ab ∧
      (∀ a, a ≠ pip'.ab → pip'.deref a = pip.deref a) ∧
      prdic_getncycles_ref pip' = .ret (SEC ob.last_tclk) := by
  obtain ⟨x, hx⟩ := (find_id_isSome l bnum).2 hmem
  have hxl := List.mem_of_find?_eq_some hx
  have hid := List.find?_some hx
  simp only [decide_eq_true_eq] at hid
  have hd := hc.deref_of_mem x hxl
  have hret : prdic_useband E fuel pip bnum = .ret (useband_result E pip ab x.1 x.2) := by
    rw [prdic_useband_chain E hc hfuel hab hne, hx]
  have hne_addr : x.1 ≠ pip.ab := by
    intro h
    rw [← h, hd] at hab
    cases hab
    exact hne hid.symm
  have hother : ∀ a, a ≠ x.1 → (useband_result E pip ab x.1 x.2).deref a = pip.deref a := by
    intro a ha
    show ({ pip.store x.1 _ with ab := x.1 } : prdic_inst).deref a = _
    rw [deref_with_ab]
    exact deref_store_other pip _ ha
  have hnew := deref_useband_result E ab hd
  refine ⟨useband_result E pip ab x.1 x.2, x.2, set_epoch_band x.2 (useband_epoch E ab),
    hret, hxl, hid, hne_addr, hnew, rfl, rfl, rfl, rfl, rfl, rfl, rfl, ?_, hother, ?_⟩
  · rw [hother pip.ab (fun h => hne_addr h.symm)]
    exact hab
  · simp only [prdic_getncycles_ref, hnew]
    rfl

/-- C19 at a concrete input: `prdic_useband(1)` on `ex_two`; the count read
right after the switch is band 1's own, 0, not band 0's 5. -/
theorem C19_useband_frame_witness :
    ∃ pip' ob nb, prdic_useband deps_spec 3 ex_two 1 = .ret pip' ∧
      (pip'.ab, ob) ∈ ex_two_list ∧ ob.id = 1 ∧ pip'.ab ≠ ex_two.ab ∧
      pip'.deref pip'.ab = some nb ∧
      nb.loop_error = ob.loop_error ∧ nb.last_tclk = ob.last_tclk ∧
      nb.period = ob.period ∧ nb.tfreq_hz = ob.tfreq_hz ∧ nb.freq_hz = ob.freq_hz ∧
      nb.id = ob.id ∧ nb.next = ob.next ∧
      pip'.deref ex_two.ab = some { ex_band0 with next := some 1 } ∧
      (∀ a, a ≠ pip'.ab → pip'.deref a = ex_two.deref a) ∧
      prdic_getncycles_ref pip' = .ret (SEC ob.last_tclk) :=
  C19_useband_frame deps_spec 3 ex_two ex_two_list 1 { ex_band0 with next := some 1 }
    ex_two_chain (by decide) rfl (by decide) (by decide)

/-- C20: for an instance whose active band is `ab`, a sleep that completes and
every clock reading: `prdic_procrastinate` returns and leaves the active
pointer, the active band's epoch, period, tick scale, `freq_hz`, filter
coefficient, id and `next`, and the band at every other address unchanged; a
band list that ended at `NULL` before still does, through the same addresses.
Only the active band's `last_tclk`, detector and `loop_error.lastval` can
differ. -/
theorem C20_procrastinate_frame (E : prdic_deps) (pip : prdic_inst)
    (ab : prdic_band) (sleeps : List (Int × timespec)) (now : timespec)
    (hab : pip.deref pip.ab = some ab) (hsleep : ∀ t, sleep_loop sleeps t ≠ none) :
    ∃ pip' nb, prdic_procrastinate E pip sleeps (some now) = .ret (pip', 0) ∧
      pip'.ab = pip.ab ∧ pip'.deref pip.ab = some nb ∧
      nb.epoch = ab.epoch ∧ nb.period = ab.period ∧ nb.tfreq_hz = ab.tfreq_hz ∧
      nb.freq_hz = ab.freq_hz ∧ nb.loop_error.coefficient = ab.loop_error.coefficient ∧
      nb.id = ab.id ∧ nb.next = ab.next ∧
      (∀ a, a ≠ pip.ab → pip'.deref a = pip.deref a) ∧
      (∀ l, Chain pip (some 0) l →
        ∃ l', Chain pip' (some 0) l' ∧ addrs_of l' = addrs_of l ∧ ids_of l' = ids_of l) := by
  refine ⟨_, procrastinate_band E ab now, prdic_procrastinate_ret E now hab hsleep,
    store_ab _ _ _, deref_store_same _ hab, rfl, rfl, rfl, rfl, ?_, rfl, rfl,
    fun _ ha => deref_store_other pip _ ha, ?_⟩
  · simp only [procrastinate_band]
    split
    · rfl
    · rfl
  · intro l hl
    exact ⟨_, chain_store hl hab rfl, addrs_of_list_store _ _ _,
      ids_of_list_store hl hab rfl⟩

/-- C20 at a concrete input: a `prdic_procrastinate` on `ex_sw`, where band 1
is active, with the clock read at 100.57 s. -/
theorem C20_procrastinate_frame_witness :
    ∃ pip' nb, prdic_procrastinate deps_spec ex_sw [(0, ⟨0, 0⟩)]
        (some ⟨100, 570000000⟩) = .ret (pip', 0) ∧
      pip'.ab = ex_sw.ab ∧ pip'.deref ex_sw.ab = some nb ∧
      nb.epoch = ex_band1_sw.epoch ∧ nb.period = ex_band1_sw.period ∧
      nb.tfreq_hz = ex_band1_sw.tfreq_hz ∧
      nb.freq_hz = ex_band1_sw.freq_hz ∧
      nb.loop_error.coefficient = ex_band1_sw.loop_error.coefficient ∧
      nb.id = ex_band1_sw.id ∧ nb.next = ex_band1_sw.next ∧
      (∀ a, a ≠ ex_sw.ab → pip'.deref a = ex_sw.deref a) ∧
      (∀ l, Chain ex_sw (some 0) l →
        ∃ l', Chain pip' (some 0) l' ∧ addrs_of l' = addrs_of l ∧ ids_of l' = ids_of l) :=
  C20_procrastinate_frame deps_spec ex_sw ex_band1_sw [(0, ⟨0, 0⟩)] ⟨100, 570000000⟩ rfl
    sleep_loop_single

/-- C16: with the fixed-point arithmetic of the specification (`deps_spec`): for
an instance whose band list ends at `NULL`, whose active band `A` has a positive
period with `period * tick_scale = 1` exactly, and whose `last_tclk` was
measured at a clock reading `now` not before `A.epoch`: after `prdic_useband(B)`
for another band `B` the new epoch of `B` is `A.epoch` plus `k` periods of `A`
for a whole number `k >= 0`, is not later than `now`, and is less than one
period of `A` before `now`.  Times are compared as nanosecond counts. -/
theorem C16_useband_phase_alignment (fuel : Nat) (pip : prdic_inst)
    (l : List (Nat × prdic_band)) (bnum : Int) (A : prdic_band) (now : timespec)
    (hc : Chain pip (some 0) l) (hfuel : l.length < fuel)
    (hab : pip.deref pip.ab = some A)
    (hmem : bnum ∈ ids_of l) (hne : bnum ≠ A.id)
    (hunit : timespec2dtime A.period * timespec2dtime A.tfreq_hz = 1)
    (hpos : 0 < ts_to_ns A.period)
    (hnow : ts_to_ns A.epoch ≤ ts_to_ns now)
    (hmeas : A.last_tclk = measured_tclk deps_spec A now) :
    ∃ pip' nb k, prdic_useband deps_spec fuel pip bnum = .ret pip' ∧
      pip'.deref pip'.ab = some nb ∧ nb.id = bnum ∧ (0 : Int) ≤ k ∧
      ts_to_ns nb.epoch = ts_to_ns A.epoch + k * ts_to_ns A.period ∧
      ts_to_ns nb.epoch ≤ ts_to_ns now ∧
      ts_to_ns now - ts_to_ns A.period < ts_to_ns nb.epoch := by
  obtain ⟨x, hx⟩ := (find_id_isSome l bnum).2 hmem
  have hxl := List.mem_of_find?_eq_some hx
  have hid := List.find?_some hx
  simp only [decide_eq_true_eq] at hid
  have hd := hc.deref_of_mem x hxl
  have hret : prdic_useband deps_spec fuel pip bnum =
      .ret (useband_result deps_spec pip A x.1 x.2) := by
    rw [prdic_useband_chain deps_spec hc hfuel hab hne, hx]
  have hnew := deref_useband_result deps_spec A hd
  -- the arithmetic
  have hPF := unit_product_ns hunit
  have hF : 0 < ts_to_ns A.tfreq_hz := by
    by_contra hcon
    have : ts_to_ns A.period * ts_to_ns A.tfreq_hz ≤ 0 :=
      mul_nonpos_of_nonneg_of_nonpos (le_of_lt hpos) (not_lt.1 hcon)
    rw [hPF] at this
    norm_num at this
  have hD : 0 ≤ ts_to_ns now - ts_to_ns A.epoch := by omega
  have hsec : SEC A.last_tclk = (ts_to_ns now - ts_to_ns A.epoch) / ts_to_ns A.period := by
    rw [hmeas, measured_sec, ← hPF]
    exact Int.mul_ediv_mul_of_pos_left _ _ hF
  have hep := useband_epoch_ns A
  rw [hsec] at hep
  have hle := Int.ediv_mul_le (ts_to_ns now - ts_to_ns A.epoch) (ne_of_gt hpos)
  have hlt := Int.lt_ediv_add_one_mul_self (ts_to_ns now - ts_to_ns A.epoch) hpos
  refine ⟨useband_result deps_spec pip A x.1 x.2, set_epoch_band x.2 (useband_epoch deps_spec A),
    (ts_to_ns now - ts_to_ns A.epoch) / ts_to_ns A.period, hret, hnew, hid,
    Int.ediv_nonneg hD (le_of_lt hpos), hep, ?_, ?_⟩
  · show ts_to_ns (useband_epoch deps_spec A) ≤ _
    rw [hep]
    linarith
  · show _ < ts_to_ns (useband_epoch deps_spec A)
    rw [hep]
    linarith

/-- C16 at a concrete input: on `ex_two` band 0 (10 Hz, period 0.1 s, epoch
100 s) measured 5.5 cycles at 100.55 s; after `prdic_useband(1)` the epoch of
band 1 is 100.5 s. -/
theorem C16_useband_phase_alignment_witness :
    ∃ pip' nb k, prdic_useband deps_spec 3 ex_two 1 = .ret pip' ∧
      pip'.deref pip'.ab = some nb ∧ nb.id = 1 ∧ (0 : Int) ≤ k ∧
      ts_to_ns nb.epoch = 100000000000 + k * 100000000 ∧
      ts_to_ns nb.epoch ≤ 100550000000 ∧
      100550000000 - 100000000 < ts_to_ns nb.epoch :=
  C16_useband_phase_alignment 3 ex_two ex_two_list 1 { ex_band0 with next := some 1 }
    ⟨100, 550000000⟩ ex_two_chain (by decide) rfl (by decide) (by decide)
    (by norm_num [timespec2dtime, ts_to_ns, NSEC_IN_SEC, ex_band0])
    (by decide) (by decide) rfl

/-- C18, refuted as stated, in binary64 arithmetic: the 8 Hz band `ex_FD_tiny`
(period 0.125 s) has a smoothed extra delay of 2^-60 s and a zero error.  After
`_prdic_procrastinate_FD` the clamped `add_delay_fltrd.lastval` is still
2^-60 > 0, so the first branch is taken; `lastval / period` is 2^-57, and
`1 - 2^-57` rounds to the `double` 1.0.  The sample applied to `sysload_fltrd`
is exactly 1, outside `[0, 1)`. -/
theorem C18_counterexample :
    0 < ex_FD_tiny.ab.period ∧
    _prdic_procrastinate_FD deps_FD_b64 ex_FD_tiny [(0, ⟨0, 0⟩)] (some ⟨100, 0⟩) =
      .ret (ex_FD_tiny_run, 0) ∧
    0 < ex_FD_tiny_run.ab.add_delay_fltrd.lastval ∧
    ex_FD_tiny_run.ab.add_delay_fltrd.lastval / ex_FD_tiny.ab.period = 1 / 2 ^ 57 ∧
    deps_FD_b64.fl (1 - deps_FD_b64.fl
      (ex_FD_tiny_run.ab.add_delay_fltrd.lastval / ex_FD_tiny.ab.period)) = 1 ∧
    ex_FD_tiny_run.ab.sysload_fltrd =
      deps_FD_b64.recfilter_apply ex_FD_tiny.ab.sysload_fltrd 1 := by
  have hq : ex_FD_tiny_run.ab.add_delay_fltrd.lastval / ex_FD_tiny.ab.period =
      (2 ^ 57 : Rat)⁻¹ := by
    norm_num [ex_FD_tiny_run, ex_FD_tiny]
  refine ⟨by norm_num [ex_FD_tiny], ex_FD_tiny_run_eval,
    by norm_num [ex_FD_tiny_run, ex_FD_tiny], by rw [hq, one_div], ?_, ?_⟩
  · rw [hq]
    show round_b64 (1 - round_b64 ((2 ^ 57 : Rat)⁻¹)) = 1
    rw [round_b64_inv_pow, round_b64_below_one_inv]
  · have e2 : (1 : Rat) - 2⁻¹ = 2⁻¹ := by norm_num
    simp [deps_FD_b64, recfilter_apply_b64, ex_FD_tiny_run, ex_FD_tiny, round_b64_zero,
      round_b64_half, e2]

/-- C18, amended: frequency-detector loop, step 7: for every band state with
`period > 0`, every clock reading, every sleep that completes and every
rounding `fl` of `double` results that keeps `[0, 1]` inside `[0, 1]`:
`_prdic_procrastinate_FD` returns 0; `loop_error` is the old filter applied to
`eval`; `sysload_fltrd` is the old filter applied to the sample
`fl(1 - fl(add_delay_fltrd.lastval / period))` when the clamped
`add_delay_fltrd.lastval` is positive, and to `fl(1 - loop_error.lastval)`,
with the `loop_error` just updated, otherwise.  In the first case the sample
lies in the closed interval `[0, 1]`; it is below 1 when the arithmetic is
exact. -/
theorem C18_sysload_sample_rounded (E : prdic_deps_FD) (pip : prdic_inst_FD)
    (sleeps : List (Int × timespec)) (now : timespec)
    (hper : 0 < pip.ab.period) (hsleep : ∀ t, sleep_loop sleeps t ≠ none)
    (hfl : ∀ x, 0 ≤ x → x ≤ 1 → 0 ≤ E.fl x ∧ E.fl x ≤ 1) :
    ∃ pip', _prdic_procrastinate_FD E pip sleeps (some now) = .ret (pip', 0) ∧
      pip'.ab.loop_error = E.recfilter_apply pip.ab.loop_error
        (E.fl (pip.ab.loop_error.lastval +
          E.erf (E.fl ((E.FD_get_error pip.ab.freq_detector
            (E.timespecmul (E.timespecsub now pip.ab.epoch) pip.ab.tfreq_hz)).1 -
              pip.ab.loop_error.lastval)))) ∧
      pip'.ab.sysload_fltrd = E.recfilter_apply pip.ab.sysload_fltrd
        (if pip'.ab.add_delay_fltrd.lastval > 0
          then E.fl (1 - E.fl (pip'.ab.add_delay_fltrd.lastval / pip.ab.period))
          else E.fl (1 - pip'.ab.loop_error.lastval)) ∧
      (pip'.ab.add_delay_fltrd.lastval > 0 →
        0 ≤ E.fl (1 - E.fl (pip'.ab.add_delay_fltrd.lastval / pip.ab.period)) ∧
        E.fl (1 - E.fl (pip'.ab.add_delay_fltrd.lastval / pip.ab.period)) ≤ 1 ∧
        ((∀ x, E.fl x = x) →
          E.fl (1 - E.fl (pip'.ab.add_delay_fltrd.lastval / pip.ab.period)) < 1)) := by
  obtain ⟨r, hr⟩ := FD_slept pip hsleep
  simp only [_prdic_procrastinate_FD, hr, getttime]
  refine ⟨_, rfl, rfl, rfl, ?_⟩
  intro hpos
  have hb := (FD_clamp_bounds (E.recfilter_apply pip.ab.add_delay_fltrd
    (E.fl (pip.ab.add_delay_fltrd.lastval +
      E.fl (E.fl (pip.ab.loop_error.lastval +
        E.erf (E.fl ((E.FD_get_error pip.ab.freq_detector
          (E.timespecmul (E.timespecsub now pip.ab.epoch) pip.ab.tfreq_hz)).1 -
            pip.ab.loop_error.lastval))) * pip.ab.period)))) pip.ab.period hper).2
  have h1 := div_le_one_of_le₀ hb (le_of_lt hper)
  have h2 := div_pos hpos hper
  have hq := hfl _ (le_of_lt h2) h1
  have hs := hfl _ (by linarith [hq.2] : (0 : Rat) ≤ 1 - E.fl _) (by linarith [hq.1])
  refine ⟨hs.1, hs.2, ?_⟩
  intro hid
  rw [hid, hid]
  linarith

/-- C18 amended, at a concrete input: the band `ex_FD_tiny` in binary64
arithmetic, which keeps `[0, 1]` inside `[0, 1]`. -/
theorem C18_sysload_sample_rounded_witness :
    ∃ pip', _prdic_procrastinate_FD deps_FD_b64 ex_FD_tiny [(0, ⟨0, 0⟩)]
        (some ⟨100, 0⟩) = .ret (pip', 0) ∧
      pip'.ab.loop_error = deps_FD_b64.recfilter_apply ex_FD_tiny.ab.loop_error
        (deps_FD_b64.fl (ex_FD_tiny.ab.loop_error.lastval +
          deps_FD_b64.erf (deps_FD_b64.fl ((deps_FD_b64.FD_get_error
            ex_FD_tiny.ab.freq_detector
            (deps_FD_b64.timespecmul (deps_FD_b64.timespecsub ⟨100, 0⟩ ex_FD_tiny.ab.epoch)
              ex_FD_tiny.ab.tfreq_hz)).1 - ex_FD_tiny.ab.loop_error.lastval)))) ∧
      pip'.ab.sysload_fltrd = deps_FD_b64.recfilter_apply ex_FD_tiny.ab.sysload_fltrd
        (if pip'.ab.add_delay_fltrd.lastval > 0
          then deps_FD_b64.fl (1 - deps_FD_b64.fl
            (pip'.ab.add_delay_fltrd.lastval / ex_FD_tiny.ab.period))
          else deps_FD_b64.fl (1 - pip'.ab.loop_error.lastval)) ∧
      (pip'.ab.add_delay_fltrd.lastval > 0 →
        0 ≤ deps_FD_b64.fl (1 - deps_FD_b64.fl
          (pip'.ab.add_delay_fltrd.lastval / ex_FD_tiny.ab.period)) ∧
        deps_FD_b64.fl (1 - deps_FD_b64.fl
          (pip'.ab.add_delay_fltrd.lastval / ex_FD_tiny.ab.period)) ≤ 1 ∧
        ((∀ x, deps_FD_b64.fl x = x) →
          deps_FD_b64.fl (1 - deps_FD_b64.fl
            (pip'.ab.add_delay_fltrd.lastval / ex_FD_tiny.ab.period)) < 1)) :=
  C18_sysload_sample_rounded deps_FD_b64 ex_FD_tiny [(0, ⟨0, 0⟩)] ⟨100, 0⟩
    (by norm_num [ex_FD_tiny]) sleep_loop_single
    (fun _ h0 h1 => round_b64_unit h0 h1)

end Periodic
